import Mathlib

/-!
Verification development for the voice-assisted teacher-workload system.

The Python sources (`voice_processor.py`, `database.py`) are shallowly embedded
here.  Strings are `List Char`; Python dicts are association lists with
Python's insert-or-overwrite semantics (`pyInsert`); the regular-expression
fragments actually used by the code are embedded as data for a small
backtracking matcher (`mrun`) that mirrors Python `re` semantics (leftmost
match, greedy/lazy quantifiers with backtracking, `re.IGNORECASE` via
case-insensitive literal comparison).  The sqlite store is embedded as an
explicit record of tables; `INSERT OR REPLACE` is delete-conflicting-then-append.
Character classes are modelled on their ASCII content (the transcripts the
program handles are ASCII; Python's `\w`/`\s`/`str.lower` agree with this
model there).
-/

/-- Python `str.isspace` characters relevant to `\s` (ASCII part). -/
def pyIsSpace (c : Char) : Bool :=
  c = ' ' || c = '\t' || c = '\n' || c = '\r' || c = '\x0b' || c = '\x0c'

/-- ASCII decimal digit, Python `\d` / `str.isdigit` (ASCII part). -/
def pyIsDigit (c : Char) : Bool := '0' ≤ c && c ≤ '9'

/-- Python `\w`: alphanumeric or underscore (ASCII part). -/
def pyIsWord (c : Char) : Bool :=
  pyIsDigit c || ('a' ≤ c && c ≤ 'z') || ('A' ≤ c && c ≤ 'Z') || c = '_'

/-- The class `[\w\s]` used by several patterns. -/
def wordOrSpace (c : Char) : Bool := pyIsWord c || pyIsSpace c

/-- Python `str.lower` on one character (ASCII part, via `Char.toLower`). -/
def lowerC (c : Char) : Char := Char.toLower c

/-- Python `str.lower` on a string. -/
def lowerStr (s : List Char) : List Char := s.map lowerC

/-- Python `str.strip`: drop whitespace at both ends. -/
def pystrip (s : List Char) : List Char :=
  ((s.dropWhile pyIsSpace).reverse.dropWhile pyIsSpace).reverse

/-- Helper for `pysplit`: `cur` is the current word, reversed. -/
def pysplitGo : List Char → List Char → List (List Char)
  | cur, [] => if cur = [] then [] else [cur.reverse]
  | cur, c :: s =>
    if pyIsSpace c then
      (if cur = [] then pysplitGo [] s else cur.reverse :: pysplitGo [] s)
    else pysplitGo (c :: cur) s

/-- Python `str.split()` with no argument: words separated by whitespace runs. -/
def pysplit (s : List Char) : List (List Char) := pysplitGo [] s

/-- Python `' '.join`. -/
def joinSpace : List (List Char) → List Char
  | [] => []
  | [w] => w
  | w :: ws => w ++ ' ' :: joinSpace ws

/-- Python `str.isdigit` on a whole string: non-empty and all digits. -/
def pyIsDigitStr (s : List Char) : Bool := !s.isEmpty && s.all pyIsDigit

/-- `int(...)` on an all-digit string. -/
def toNatD (s : List Char) : Nat := s.foldl (fun n c => n * 10 + (c.toNat - '0'.toNat)) 0

/-- Decimal rendering of a natural number, for the f-string messages. -/
def natToStr (n : Nat) : List Char := Nat.toDigits 10 n

/-- `VoiceProcessor._expand_usn` (voice_processor.py:359-379).
`pfx` models `self.usn_prefix`, `digits` the captured short code. -/
def expand_usn (pfx digits : List Char) : List Char :=
  if pfx = [] then digits
  else if pfx.getLast? = some '0' ∧ digits.length = 3 then pfx.dropLast ++ digits
  else pfx ++ digits

/-- The prefix-expansion function as the spec describes it (§4.2.1): written
from the spec's words, to be compared with `expand_usn` from the source. -/
def expandSpecFn (p d : List Char) : List Char :=
  if p.getLast? = some '0' ∧ d.length = 3 then p.dropLast ++ d else p ++ d

/-- Python-dict insertion on an association list: overwriting an existing key
keeps its position, a new key is appended at the end. -/
def pyInsert {α β : Type} [DecidableEq α] (d : List (α × β)) (k : α) (v : β) :
    List (α × β) :=
  if k ∈ d.map Prod.fst then d.map (fun p => if p.1 = k then (k, v) else p)
  else d ++ [(k, v)]

/-- `sum(marks_dict.values())`. -/
def dsum (d : List (Nat × Nat)) : Nat := (d.map Prod.snd).sum

/-- `DatabaseManager.validate_question_combination` (database.py:200-220). -/
def validate_question_combination (d : List (Nat × Nat)) : Bool :=
  let keys := d.map Prod.fst
  if d.length ≠ 4 then false
  else
    (decide (1 ∈ keys) || decide (2 ∈ keys)) &&
    (decide (3 ∈ keys) || decide (4 ∈ keys)) &&
    (decide (5 ∈ keys) || decide (6 ∈ keys)) &&
    (decide (7 ∈ keys) || decide (8 ∈ keys)) &&
    !(decide (1 ∈ keys) && decide (2 ∈ keys)) &&
    !(decide (3 ∈ keys) && decide (4 ∈ keys)) &&
    !(decide (5 ∈ keys) && decide (6 ∈ keys)) &&
    !(decide (7 ∈ keys) && decide (8 ∈ keys))

/-- The pairing property as the spec states it: the key list is, up to order,
one member from each of the four pairs (and nothing else). -/
def ExactlyOnePerPair (keys : List Nat) : Prop :=
  ∃ a b c e, a ∈ ([1, 2] : List Nat) ∧ b ∈ ([3, 4] : List Nat) ∧
    c ∈ ([5, 6] : List Nat) ∧ e ∈ ([7, 8] : List Nat) ∧ keys.Perm [a, b, c, e]

lemma length_eq_four_of_perm {keys : List Nat} {a b c e : Nat}
    (h : keys.Perm [a, b, c, e]) : keys.length = 4 := by
  simpa using h.length_eq

lemma validate_iff (d : List (Nat × Nat)) (hnd : (d.map Prod.fst).Nodup) :
    validate_question_combination d = true ↔ ExactlyOnePerPair (d.map Prod.fst) := by
  classical
  unfold validate_question_combination ExactlyOnePerPair
  set keys := d.map Prod.fst with hkeys
  have hlen : keys.length = d.length := by simp [hkeys]
  constructor
  · intro h
    by_cases h4 : d.length ≠ 4
    · simp [h4] at h
    push_neg at h4
    simp only [h4, if_neg, ne_eq, not_true_eq_false, if_false] at h
    simp only [Bool.and_eq_true, Bool.or_eq_true, Bool.not_eq_true',
      Bool.and_eq_false_iff, decide_eq_true_eq, decide_eq_false_iff_not] at h
    obtain ⟨⟨⟨⟨⟨⟨⟨h12, h34⟩, h56⟩, h78⟩, n12o⟩, n34o⟩, n56o⟩, n78o⟩ := h
    have n12 : ¬(1 ∈ keys ∧ 2 ∈ keys) := not_and_or.mpr n12o
    have n34 : ¬(3 ∈ keys ∧ 4 ∈ keys) := not_and_or.mpr n34o
    have n56 : ¬(5 ∈ keys ∧ 6 ∈ keys) := not_and_or.mpr n56o
    have n78 : ¬(7 ∈ keys ∧ 8 ∈ keys) := not_and_or.mpr n78o
    refine ⟨if 1 ∈ keys then 1 else 2, if 3 ∈ keys then 3 else 4,
      if 5 ∈ keys then 5 else 6, if 7 ∈ keys then 7 else 8, ?_, ?_, ?_, ?_, ?_⟩
    · by_cases h1 : 1 ∈ keys <;> simp [h1]
    · by_cases h3 : 3 ∈ keys <;> simp [h3]
    · by_cases h5 : 5 ∈ keys <;> simp [h5]
    · by_cases h7 : 7 ∈ keys <;> simp [h7]
    · set a := if 1 ∈ keys then 1 else 2 with ha
      set b := if 3 ∈ keys then 3 else 4 with hb
      set c := if 5 ∈ keys then 5 else 6 with hc
      set e := if 7 ∈ keys then 7 else 8 with he
      have hma : a ∈ keys := by
        by_cases h1 : 1 ∈ keys
        · simp [ha, h1]
        · have := h12.resolve_left h1; simp [ha, h1, this]
      have hmb : b ∈ keys := by
        by_cases h3 : 3 ∈ keys
        · simp [hb, h3]
        · have := h34.resolve_left h3; simp [hb, h3, this]
      have hmc : c ∈ keys := by
        by_cases h5 : 5 ∈ keys
        · simp [hc, h5]
        · have := h56.resolve_left h5; simp [hc, h5, this]
      have hme : e ∈ keys := by
        by_cases h7 : 7 ∈ keys
        · simp [he, h7]
        · have := h78.resolve_left h7; simp [he, h7, this]
      have hab : a ≠ b := by
        by_cases h1 : 1 ∈ keys <;> by_cases h3 : 3 ∈ keys <;> simp [ha, hb, h1, h3]
      have hac : a ≠ c := by
        by_cases h1 : 1 ∈ keys <;> by_cases h5 : 5 ∈ keys <;> simp [ha, hc, h1, h5]
      have hae : a ≠ e := by
        by_cases h1 : 1 ∈ keys <;> by_cases h7 : 7 ∈ keys <;> simp [ha, he, h1, h7]
      have hbc : b ≠ c := by
        by_cases h3 : 3 ∈ keys <;> by_cases h5 : 5 ∈ keys <;> simp [hb, hc, h3, h5]
      have hbe : b ≠ e := by
        by_cases h3 : 3 ∈ keys <;> by_cases h7 : 7 ∈ keys <;> simp [hb, he, h3, h7]
      have hce : c ≠ e := by
        by_cases h5 : 5 ∈ keys <;> by_cases h7 : 7 ∈ keys <;> simp [hc, he, h5, h7]
      have hsub : ∀ x ∈ keys, x ∈ ([a, b, c, e] : List Nat) := by
        intro x hx
        by_cases hx12 : x = 1 ∨ x = 2
        · rcases hx12 with rfl | rfl
          · have h1 : (1 : Nat) ∈ keys := hx
            simp [ha, h1]
          · have h1 : (1 : Nat) ∉ keys := by
              intro h1
              exact n12 ⟨h1, hx⟩
            simp [ha, h1]
        by_cases hx34 : x = 3 ∨ x = 4
        · rcases hx34 with rfl | rfl
          · have h3 : (3 : Nat) ∈ keys := hx
            simp [hb, h3]
          · have h3 : (3 : Nat) ∉ keys := by
              intro h3
              exact n34 ⟨h3, hx⟩
            simp [hb, h3]
        by_cases hx56 : x = 5 ∨ x = 6
        · rcases hx56 with rfl | rfl
          · have h5 : (5 : Nat) ∈ keys := hx
            simp [hc, h5]
          · have h5 : (5 : Nat) ∉ keys := by
              intro h5
              exact n56 ⟨h5, hx⟩
            simp [hc, h5]
        by_cases hx78 : x = 7 ∨ x = 8
        · rcases hx78 with rfl | rfl
          · have h7 : (7 : Nat) ∈ keys := hx
            simp [he, h7]
          · have h7 : (7 : Nat) ∉ keys := by
              intro h7
              exact n78 ⟨h7, hx⟩
            simp [he, h7]
        · exfalso
          have hxs : ({x, a, b, c, e} : Finset Nat) ⊆ keys.toFinset := by
            intro y hy
            simp only [Finset.mem_insert, Finset.mem_singleton] at hy
            rcases hy with rfl | rfl | rfl | rfl | rfl <;>
              simp [List.mem_toFinset, hx, hma, hmb, hmc, hme]
          have hxa : x ≠ a := by
            by_cases h1 : 1 ∈ keys <;> simp [ha, h1] <;> omega
          have hxb : x ≠ b := by
            by_cases h3 : 3 ∈ keys <;> simp [hb, h3] <;> omega
          have hxc : x ≠ c := by
            by_cases h5 : 5 ∈ keys <;> simp [hc, h5] <;> omega
          have hxe : x ≠ e := by
            by_cases h7 : 7 ∈ keys <;> simp [he, h7] <;> omega
          have hcard5 : ({x, a, b, c, e} : Finset Nat).card = 5 := by
            rw [Finset.card_insert_of_not_mem (by simp [hxa, hxb, hxc, hxe]),
              Finset.card_insert_of_not_mem (by simp [hab, hac, hae]),
              Finset.card_insert_of_not_mem (by simp [hbc, hbe]),
              Finset.card_insert_of_not_mem (by simp [hce]),
              Finset.card_singleton]
          have hcardk : keys.toFinset.card = 4 := by
            rw [List.toFinset_card_of_nodup hnd, hlen, h4]
          have := Finset.card_le_card hxs
          omega
      have hdup : ([a, b, c, e] : List Nat).Nodup := by
        simp [hab, hac, hae, hbc, hbe, hce]
      apply List.perm_of_nodup_nodup_toFinset_eq hnd hdup
      apply Finset.Subset.antisymm
      · intro y hy
        rw [List.mem_toFinset] at hy ⊢
        exact hsub y hy
      · intro y hy
        rw [List.mem_toFinset] at hy ⊢
        simp only [List.mem_cons, List.not_mem_nil, or_false] at hy
        rcases hy with rfl | rfl | rfl | rfl
        · exact hma
        · exact hmb
        · exact hmc
        · exact hme
  · rintro ⟨a, b, c, e, hha, hhb, hhc, hhe, hperm⟩
    have h4 : d.length = 4 := by
      rw [← hlen]; exact length_eq_four_of_perm hperm
    have hmem : ∀ x, x ∈ keys ↔ x ∈ ([a, b, c, e] : List Nat) :=
      fun x => hperm.mem_iff
    simp only [List.mem_cons, List.not_mem_nil, or_false] at hmem
    simp only [List.mem_cons, List.not_mem_nil, or_false] at hha hhb hhc hhe
    have hrange : ∀ x, x ∈ keys → x ∈ ([a, b, c, e] : List Nat) :=
      fun x hx => hperm.mem_iff.mp hx
    have haK : a ∈ keys := hperm.mem_iff.mpr (by simp)
    have hbK : b ∈ keys := hperm.mem_iff.mpr (by simp)
    have hcK : c ∈ keys := hperm.mem_iff.mpr (by simp)
    have heK : e ∈ keys := hperm.mem_iff.mpr (by simp)
    have h12 : (1 ∈ keys ∨ 2 ∈ keys) := by
      rcases hha with rfl | rfl
      · exact Or.inl haK
      · exact Or.inr haK
    have h34 : (3 ∈ keys ∨ 4 ∈ keys) := by
      rcases hhb with rfl | rfl
      · exact Or.inl hbK
      · exact Or.inr hbK
    have h56 : (5 ∈ keys ∨ 6 ∈ keys) := by
      rcases hhc with rfl | rfl
      · exact Or.inl hcK
      · exact Or.inr hcK
    have h78 : (7 ∈ keys ∨ 8 ∈ keys) := by
      rcases hhe with rfl | rfl
      · exact Or.inl heK
      · exact Or.inr heK
    have hpairs : ∀ x y : Nat, x ∈ keys → y ∈ keys → x ≠ y →
        ¬(x ∈ ([1,2] : List Nat) ∧ y ∈ ([1,2] : List Nat)) ∧
        ¬(x ∈ ([3,4] : List Nat) ∧ y ∈ ([3,4] : List Nat)) ∧
        ¬(x ∈ ([5,6] : List Nat) ∧ y ∈ ([5,6] : List Nat)) ∧
        ¬(x ∈ ([7,8] : List Nat) ∧ y ∈ ([7,8] : List Nat)) := by
      intro x y hxk hyk hxy
      have hx := hrange x hxk
      have hy := hrange y hyk
      simp only [List.mem_cons, List.not_mem_nil, or_false] at hx hy
      refine ⟨?_, ?_, ?_, ?_⟩ <;>
      · rintro ⟨hx2, hy2⟩
        simp only [List.mem_cons, List.not_mem_nil, or_false] at hx2 hy2
        rcases hha with rfl | rfl <;> rcases hhb with rfl | rfl <;>
          rcases hhc with rfl | rfl <;> rcases hhe with rfl | rfl <;>
          rcases hx with rfl | rfl | rfl | rfl <;>
          rcases hy with rfl | rfl | rfl | rfl <;> omega
    have n12 : ¬(1 ∈ keys ∧ 2 ∈ keys) := by
      rintro ⟨hk1, hk2⟩
      exact (hpairs 1 2 hk1 hk2 (by omega)).1 ⟨by simp, by simp⟩
    have n34 : ¬(3 ∈ keys ∧ 4 ∈ keys) := by
      rintro ⟨hk1, hk2⟩
      exact (hpairs 3 4 hk1 hk2 (by omega)).2.1 ⟨by simp, by simp⟩
    have n56 : ¬(5 ∈ keys ∧ 6 ∈ keys) := by
      rintro ⟨hk1, hk2⟩
      exact (hpairs 5 6 hk1 hk2 (by omega)).2.2.1 ⟨by simp, by simp⟩
    have n78 : ¬(7 ∈ keys ∧ 8 ∈ keys) := by
      rintro ⟨hk1, hk2⟩
      exact (hpairs 7 8 hk1 hk2 (by omega)).2.2.2 ⟨by simp, by simp⟩
    simp only [h4, ne_eq, not_true_eq_false, if_false, Bool.and_eq_true,
      Bool.or_eq_true, Bool.not_eq_true', Bool.and_eq_false_iff,
      decide_eq_true_eq, decide_eq_false_iff_not]
    refine ⟨⟨⟨⟨⟨⟨⟨?_, ?_⟩, ?_⟩, ?_⟩, ?_⟩, ?_⟩, ?_⟩, ?_⟩
    · exact h12.imp id id
    · exact h34.imp id id
    · exact h56.imp id id
    · exact h78.imp id id
    · exact not_and_or.mp n12
    · exact not_and_or.mp n34
    · exact not_and_or.mp n56
    · exact not_and_or.mp n78

/-- C1: `validate_question_combination` accepts a MarksSet (association list
with distinct keys) iff its key set consists of exactly one member of each of
the four pairs (1,2),(3,4),(5,6),(7,8) — in particular it rejects the empty
map, maps with more than 4 entries, and maps containing both members of a
pair, since none of those key lists is a permutation of one-from-each-pair. -/
theorem claim_C1 (d : List (Nat × Nat)) (hnd : (d.map Prod.fst).Nodup) :
    validate_question_combination d = true ↔ ExactlyOnePerPair (d.map Prod.fst) :=
  validate_iff d hnd

theorem claim_C1_witness :
    (([((1 : Nat), (8 : Nat)), (3, 7), (6, 9), (8, 8)].map
        (Prod.fst (β := Nat))).Nodup ∧
      (validate_question_combination [(1, 8), (3, 7), (6, 9), (8, 8)] = true ↔
        ExactlyOnePerPair ([(1, 8), (3, 7), (6, 9), (8, 8)].map Prod.fst))) ∧
    validate_question_combination [] = false ∧
    validate_question_combination [(1, 5), (2, 5), (3, 5), (5, 5)] = false :=
  ⟨⟨by decide, claim_C1 [(1, 8), (3, 7), (6, 9), (8, 8)] (by decide)⟩,
    by decide, by decide⟩

/-- C2: for every prefix `p` and digit string `d` of length 2 or 3,
`expand_usn` is the pure function of the spec: if `p` ends in the character
`'0'` and `d` has length 3 the result is `p` minus its last character
followed by `d`; otherwise it is `p ++ d`. -/
theorem claim_C2 (p d : List Char) (hd : d.length = 2 ∨ d.length = 3) :
    expand_usn p d = expandSpecFn p d := by
  unfold expand_usn expandSpecFn
  by_cases hp : p = []
  · subst hp
    simp
  · simp [hp]

theorem claim_C2_witness :
    ((("1GA23CI0".toList.length = (8 : Nat)) ∧
        ("106".toList.length = 2 ∨ "106".toList.length = 3)) ∧
      expand_usn "1GA23CI0".toList "106".toList =
        expandSpecFn "1GA23CI0".toList "106".toList) ∧
    expand_usn "1GA23CI0".toList "106".toList = "1GA23CI106".toList ∧
    expand_usn "1GA23CI0".toList "24".toList = "1GA23CI024".toList :=
  ⟨⟨⟨by decide, by decide⟩, claim_C2 "1GA23CI0".toList "106".toList (by decide)⟩,
    by decide, by decide⟩

/-!
A small backtracking regular-expression matcher, mirroring Python `re`
semantics for the fragments the program uses.  All quantified sub-patterns in
those fragments are single-character classes, optional literal groups, or
alternations of literals, which this item language covers exactly.  Literals
compare case-insensitively (`re.IGNORECASE`); `+` is encoded as `one p`
followed by `star`; `{2}`/`{2,3}` as repeated `one`/`optC`.
-/
inductive RI where
  | lit (s : List Char)
  | one (p : Char → Bool)
  | star (lazy : Bool) (p : Char → Bool)
  | optC (p : Char → Bool)
  | optSeq (xs : List RI)
  | alt (xs : List (List RI))
  | openG
  | closeG
  | nla (p : Char → Bool)

/-- First-some choice, used for ordered alternatives and greedy/lazy trials. -/
def oelse {α : Type} : Option α → Option α → Option α
  | some x, _ => some x
  | none, b => b

/-- Case-insensitive literal match: consume `l` from the head of `s`. -/
def dropLitCI : List Char → List Char → Option (List Char)
  | [], s => some s
  | _ :: _, [] => none
  | l :: ls, c :: s => if lowerC c = lowerC l then dropLitCI ls s else none

/-- The backtracking matcher.  `fuel` bounds recursion depth (every call
consumes one unit; the wrappers below pass ample fuel for the fixed, small
patterns in use).  State: remaining input `s`, absolute position `pos`,
open-group stack `gs`, and closed captures `caps` as (start, end) positions.
Returns the captures and the end position of the leftmost match at this
position, trying alternatives in Python `re` backtracking order. -/
def mrun : Nat → List RI → List Char → Nat → List Nat → List (Nat × Nat) →
    Option (List (Nat × Nat) × Nat)
  | 0, _, _, _, _, _ => none
  | _ + 1, [], _, pos, _, caps => some (caps, pos)
  | f + 1, RI.lit l :: rest, s, pos, gs, caps =>
    match dropLitCI l s with
    | some s2 => mrun f rest s2 (pos + l.length) gs caps
    | none => none
  | f + 1, RI.one p :: rest, s, pos, gs, caps =>
    match s with
    | [] => none
    | c :: s2 => if p c then mrun f rest s2 (pos + 1) gs caps else none
  | f + 1, RI.star lz p :: rest, s, pos, gs, caps =>
    if lz then
      oelse (mrun f rest s pos gs caps)
        (mrun f (RI.one p :: RI.star lz p :: rest) s pos gs caps)
    else
      oelse (mrun f (RI.one p :: RI.star lz p :: rest) s pos gs caps)
        (mrun f rest s pos gs caps)
  | f + 1, RI.optC p :: rest, s, pos, gs, caps =>
    oelse (mrun f (RI.one p :: rest) s pos gs caps) (mrun f rest s pos gs caps)
  | f + 1, RI.optSeq xs :: rest, s, pos, gs, caps =>
    oelse (mrun f (xs ++ rest) s pos gs caps) (mrun f rest s pos gs caps)
  | _ + 1, RI.alt [] :: _, _, _, _, _ => none
  | f + 1, RI.alt (x :: xs) :: rest, s, pos, gs, caps =>
    oelse (mrun f (x ++ rest) s pos gs caps) (mrun f (RI.alt xs :: rest) s pos gs caps)
  | f + 1, RI.openG :: rest, s, pos, gs, caps => mrun f rest s pos (pos :: gs) caps
  | f + 1, RI.closeG :: rest, s, pos, gs, caps =>
    match gs with
    | [] => none
    | g :: gs2 => mrun f rest s pos gs2 (caps ++ [(g, pos)])
  | f + 1, RI.nla p :: rest, s, pos, gs, caps =>
    match s with
    | [] => mrun f rest s pos gs caps
    | c :: _ => if p c then none else mrun f rest s pos gs caps

/-- Ample fuel for one match attempt: star unfolding consumes at most two
units per input character, plus the (small, fixed) pattern sizes. -/
def reFuel (s : List Char) : Nat := 2 * s.length + 200

/-- Anchored match (patterns beginning with `^`): one attempt at position 0. -/
def manchor (pat : List RI) (t : List Char) : Option (List (Nat × Nat) × Nat) :=
  mrun (reFuel t) pat t 0 [] []

/-- `re.search`: try positions left to right; returns (captures, start, end). -/
def reGo (pat : List RI) : List Char → Nat → Option (List (Nat × Nat) × Nat × Nat)
  | [], pos =>
    match mrun (reFuel []) pat [] pos [] [] with
    | some (caps, e) => some (caps, pos, e)
    | none => none
  | c :: s2, pos =>
    match mrun (reFuel (c :: s2)) pat (c :: s2) pos [] [] with
    | some (caps, e) => some (caps, pos, e)
    | none => reGo pat s2 (pos + 1)

def research (pat : List RI) (t : List Char) : Option (List (Nat × Nat) × Nat × Nat) :=
  reGo pat t 0

/-- `re.finditer`: repeated leftmost search, resuming after each match
(advancing at least one character), collecting each match's captures. -/
def fiGo (pat : List RI) : Nat → List Char → Nat → List (List (Nat × Nat))
  | 0, _, _ => []
  | f + 1, s, pos =>
    match reGo pat s pos with
    | none => []
    | some (caps, _, e) =>
      let step := max (e - pos) 1
      caps :: fiGo pat f (s.drop step) (pos + step)

def finditer (pat : List RI) (t : List Char) : List (List (Nat × Nat)) :=
  fiGo pat (t.length + 1) t 0

/-- `match.group(i)` content from (start, end) positions of the subject. -/
def substrOf (t : List Char) (a b : Nat) : List Char := (t.drop a).take (b - a)

/-- Pattern 1 of `extract_identifier`: `usn\s+(\w+)` (voice_processor.py:197). -/
def p1Pat : List RI :=
  [RI.lit "usn".toList, RI.one pyIsSpace, RI.star false pyIsSpace,
   RI.openG, RI.one pyIsWord, RI.star false pyIsWord, RI.closeG]

def p1Match (t : List Char) : Option (List Char) :=
  match research p1Pat t with
  | some ((a, b) :: _, _, _) => some (substrOf t a b)
  | _ => none

/-- Pattern 1.5: `^(\d{2,3})\s+(is|has|scored)` (voice_processor.py:211). -/
def p15Pat : List RI :=
  [RI.openG, RI.one pyIsDigit, RI.one pyIsDigit, RI.optC pyIsDigit, RI.closeG,
   RI.one pyIsSpace, RI.star false pyIsSpace,
   RI.openG, RI.alt [[RI.lit "is".toList], [RI.lit "has".toList], [RI.lit "scored".toList]],
   RI.closeG]

def p15Match (t : List Char) : Option (List Char) :=
  match manchor p15Pat t with
  | some ((a, b) :: _, _) => some (substrOf t a b)
  | _ => none

/-- Pattern 2: `^([\w\s]+?)\s+is\s+(present|absent)` (voice_processor.py:221). -/
def p2Pat : List RI :=
  [RI.openG, RI.one wordOrSpace, RI.star true wordOrSpace, RI.closeG,
   RI.one pyIsSpace, RI.star false pyIsSpace, RI.lit "is".toList,
   RI.one pyIsSpace, RI.star false pyIsSpace,
   RI.openG, RI.alt [[RI.lit "present".toList], [RI.lit "absent".toList]], RI.closeG]

def p2Match (t : List Char) : Option (List Char) :=
  match manchor p2Pat t with
  | some ((a, b) :: _, _) => some (substrOf t a b)
  | _ => none

/-- Pattern 3a: `^([\w\s]+?)\s+(?:has\s+)?scored` (voice_processor.py:233). -/
def p3aPat : List RI :=
  [RI.openG, RI.one wordOrSpace, RI.star true wordOrSpace, RI.closeG,
   RI.one pyIsSpace, RI.star false pyIsSpace,
   RI.optSeq [RI.lit "has".toList, RI.one pyIsSpace, RI.star false pyIsSpace],
   RI.lit "scored".toList]

/-- Pattern 3b: `^([\w\s]+?)\s+has\s+` (voice_processor.py:234). -/
def p3bPat : List RI :=
  [RI.openG, RI.one wordOrSpace, RI.star true wordOrSpace, RI.closeG,
   RI.one pyIsSpace, RI.star false pyIsSpace, RI.lit "has".toList,
   RI.one pyIsSpace, RI.star false pyIsSpace]

/-- Pattern 3c: `^([\w\s]+?)\s+ia[12]` (voice_processor.py:235). -/
def p3cPat : List RI :=
  [RI.openG, RI.one wordOrSpace, RI.star true wordOrSpace, RI.closeG,
   RI.one pyIsSpace, RI.star false pyIsSpace, RI.lit "ia".toList,
   RI.one (fun c => c = '1' || c = '2')]

def groupOf (t : List Char) (r : Option (List (Nat × Nat) × Nat)) : Option (List Char) :=
  match r with
  | some ((a, b) :: _, _) => some (substrOf t a b)
  | _ => none

def p3Match (t : List Char) : Option (List Char) :=
  oelse (groupOf t (manchor p3aPat t))
    (oelse (groupOf t (manchor p3bPat t)) (groupOf t (manchor p3cPat t)))

/-- `noise_words` (voice_processor.py:191). -/
def noiseWords : List (List Char) :=
  ["i", "scored", "as", "a", "the", "has", "have", "had"].map String.toList

/-- Keyword list of pattern 4 (voice_processor.py:247). -/
def keywordList : List (List Char) :=
  ["is", "has", "have", "scored", "marks", "mark", "ia1", "ia2", "question", "i"].map
    String.toList

/-- Stop-word stripping applied to a captured name span
(voice_processor.py:224-227 and 241-244): strip, drop noise words, rejoin;
if every word was noise, return the stripped span itself. -/
def cleanName (span : List Char) : List Char :=
  let name := pystrip span
  let parts := (pysplit name).filter (fun w => decide ((lowerStr w) ∉ noiseWords))
  if parts = [] then name else joinSpace parts

/-- Word loop of pattern 4 (voice_processor.py:249-257): take words before the
first keyword, keeping only non-noise words of length > 1 that are not pure
digits. -/
def p4Go : List (List Char) → List (List Char)
  | [] => []
  | w :: ws =>
    if lowerStr w ∈ keywordList then []
    else if (lowerStr w) ∉ noiseWords ∧ 1 < w.length ∧ pyIsDigitStr w = false then
      w :: p4Go ws
    else p4Go ws

def p4Extract (t : List Char) : Option (List Char) :=
  let ws := p4Go (pysplit t)
  if ws = [] then none else some (joinSpace ws)

/-- `VoiceProcessor.extract_identifier` (voice_processor.py:189-262).
`pfx` models `self.usn_prefix`.  Note the source guard on pattern 1 is
`len(usn_part) <= 3` (1 to 3 digits), and pattern 1.5 runs only when a
prefix is configured. -/
def extract_identifier (pfx : List Char) (text : List Char) : Option (List Char) :=
  match p1Match text with
  | some tok =>
    if pyIsDigitStr tok = true ∧ tok.length ≤ 3 ∧ pfx ≠ [] then
      some (expand_usn pfx tok)
    else some tok
  | none =>
    match (if pfx = [] then none else p15Match text) with
    | some ds => some (expand_usn pfx ds)
    | none =>
      match p2Match text with
      | some span => some (cleanName span)
      | none =>
        match p3Match text with
        | some span => some (cleanName span)
        | none => p4Extract text

/-- `VoiceProcessor.extract_attendance_status` (voice_processor.py:264-270):
substring containment, "present" checked before "absent". -/
def extract_attendance_status (t : List Char) : Option (List Char) :=
  if ("present".toList).IsInfix t then some "Present".toList
  else if ("absent".toList).IsInfix t then some "Absent".toList
  else none


/-- Case-insensitive literal split, keeping the consumed original characters
(`match.group(0)` preserves the subject's text, not the pattern's). -/
def ciSplitLit : List Char → List Char → Option (List Char × List Char)
  | [], s => some ([], s)
  | _ :: _, [] => none
  | l :: ls, c :: s =>
    if lowerC c = lowerC l then
      match ciSplitLit ls s with
      | some (pre, rest) => some (c :: pre, rest)
      | none => none
    else none

/-- One attempt of `question\s*(\d{2})\s*mark` at the head of `s`
(voice_processor.py:352).  The classes `\s`, `\d` and the literals are
pairwise disjoint at every boundary, so maximal munch is exactly the regex
backtracking behaviour.  Returns (matched span, digit1, digit2, rest). -/
def try1 (s : List Char) : Option (List Char × Char × Char × List Char) :=
  match ciSplitLit "question".toList s with
  | none => none
  | some (cq, s1) =>
    let w1 := s1.takeWhile pyIsSpace
    match s1.dropWhile pyIsSpace with
    | a :: b :: s3 =>
      if pyIsDigit a && pyIsDigit b then
        let w2 := s3.takeWhile pyIsSpace
        match ciSplitLit "mark".toList (s3.dropWhile pyIsSpace) with
        | some (cm, rest) => some (cq ++ w1 ++ a :: b :: (w2 ++ cm), a, b, rest)
        | none => none
      else none
    | _ => none

/-- One attempt of `question\s*(\d{2})(?!\d)` at the head of `s`
(voice_processor.py:355). -/
def try2 (s : List Char) : Option (List Char × Char × Char × List Char) :=
  match ciSplitLit "question".toList s with
  | none => none
  | some (cq, s1) =>
    let w1 := s1.takeWhile pyIsSpace
    match s1.dropWhile pyIsSpace with
    | a :: b :: s3 =>
      if pyIsDigit a && pyIsDigit b &&
          (match s3 with | c :: _ => !pyIsDigit c | [] => true) then
        some (cq ++ w1 ++ a :: b :: [], a, b, s3)
      else none
    | _ => none

/-- `replace_question_number` (voice_processor.py:336-349): the replacement
function of both substitutions; keeps the match verbatim when the first digit
is outside 1..8 (the second-digit check `0 <= digit2 <= 10` always holds for
one digit). -/
def replace_question_number (a b : Char) (full : List Char) : List Char :=
  let d1 := a.toNat - '0'.toNat
  let d2 := b.toNat - '0'.toNat
  if 1 ≤ d1 ∧ d1 ≤ 8 ∧ 0 ≤ d2 ∧ d2 ≤ 10 then
    "question ".toList ++ a :: ' ' :: b :: " marks".toList
  else full

/-- `re.sub` for one of the two patterns above: scan left to right, replace
each (non-empty) match and resume after it.  `fuel` only needs to be the
input length, since a match consumes at least the word `question`. -/
def subF (tryf : List Char → Option (List Char × Char × Char × List Char)) :
    Nat → List Char → List Char
  | 0, s => s
  | _ + 1, [] => []
  | f + 1, c :: s =>
    match tryf (c :: s) with
    | some (m, a, b, rest) => replace_question_number a b m ++ subF tryf f rest
    | none => c :: subF tryf f s

/-- `VoiceProcessor.fix_transcription_errors` (voice_processor.py:330-357):
first substitute `question\s*(\d{2})\s*mark`, then `question\s*(\d{2})(?!\d)`,
both with `replace_question_number`. -/
def fix_transcription_errors (t : List Char) : List Char :=
  let t1 := subF try1 t.length t
  subF try2 t1.length t1

/-- The mojibake characters standing where en/em dashes were intended in the
source's character class `[\s\-â€“â€”]` (the file stores the UTF-8 of
`â`,`€`,`“`,`â`,`€`,`”`); the class is whitespace, `-`, or one of those. -/
def dashChars : List Char := ['-', 'â', '€', '“', '”']

def dashOrSpace (c : Char) : Bool := pyIsSpace c || decide (c ∈ dashChars)

/-- `(\d+)` as a capture group. -/
def grpDigits : List RI :=
  [RI.openG, RI.one pyIsDigit, RI.star false pyIsDigit, RI.closeG]

/-- `question\s*(\d+)\s*,\s*(\d+)\s*marks?` (voice_processor.py:284). -/
def m1Pat : List RI :=
  [RI.lit "question".toList, RI.star false pyIsSpace] ++ grpDigits ++
  [RI.star false pyIsSpace, RI.lit ",".toList, RI.star false pyIsSpace] ++ grpDigits ++
  [RI.star false pyIsSpace, RI.lit "mark".toList, RI.optC (fun c => lowerC c = 's')]

/-- `question\s*(\d+)[\s\-â€“â€”]*(\d+)\s*mark` (voice_processor.py:286). -/
def m2Pat : List RI :=
  [RI.lit "question".toList, RI.star false pyIsSpace] ++ grpDigits ++
  [RI.star false dashOrSpace] ++ grpDigits ++
  [RI.star false pyIsSpace, RI.lit "mark".toList]

/-- `question\s*(\d+)[\s\-â€“â€”]+(\d+)(?!\d)` (voice_processor.py:288). -/
def m3Pat : List RI :=
  [RI.lit "question".toList, RI.star false pyIsSpace] ++ grpDigits ++
  [RI.one dashOrSpace, RI.star false dashOrSpace] ++ grpDigits ++
  [RI.nla pyIsDigit]

/-- `q(\d+)[\s\-â€“â€”]+(\d+)\s*mark` (voice_processor.py:290). -/
def m4Pat : List RI :=
  [RI.lit "q".toList] ++ grpDigits ++
  [RI.one dashOrSpace, RI.star false dashOrSpace] ++ grpDigits ++
  [RI.star false pyIsSpace, RI.lit "mark".toList]

/-- `q(\d+)[\s\-â€“â€”]+(\d+)(?!\d)` (voice_processor.py:291). -/
def m5Pat : List RI :=
  [RI.lit "q".toList] ++ grpDigits ++
  [RI.one dashOrSpace, RI.star false dashOrSpace] ++ grpDigits ++
  [RI.nla pyIsDigit]

/-- `(\d+)\s*mark[s]?\s+in\s+question\s+(\d+)` (voice_processor.py:293). -/
def m6Pat : List RI :=
  grpDigits ++
  [RI.star false pyIsSpace, RI.lit "mark".toList, RI.optC (fun c => lowerC c = 's'),
   RI.one pyIsSpace, RI.star false pyIsSpace, RI.lit "in".toList,
   RI.one pyIsSpace, RI.star false pyIsSpace, RI.lit "question".toList,
   RI.one pyIsSpace, RI.star false pyIsSpace] ++ grpDigits

/-- `scored[\s\w]*?(\d+)\s*mark[s]?\s+in\s+question\s+(\d+)`
(voice_processor.py:295). -/
def m7Pat : List RI :=
  [RI.lit "scored".toList, RI.star true wordOrSpace] ++ grpDigits ++
  [RI.star false pyIsSpace, RI.lit "mark".toList, RI.optC (fun c => lowerC c = 's'),
   RI.one pyIsSpace, RI.star false pyIsSpace, RI.lit "in".toList,
   RI.one pyIsSpace, RI.star false pyIsSpace, RI.lit "question".toList,
   RI.one pyIsSpace, RI.star false pyIsSpace] ++ grpDigits

/-- Fallback `(\d+)[\s\w]*?question\s*(\d+)` (voice_processor.py:320). -/
def flexPat : List RI :=
  grpDigits ++ [RI.star true wordOrSpace, RI.lit "question".toList,
    RI.star false pyIsSpace] ++ grpDigits

/-- A marks pattern together with its capture-group orientation.
`marksFirst = true` means group 1 is the score and group 2 the question
number.  In the source the orientation is recomputed at run time from the
pattern string (voice_processor.py:305: `'mark' in pattern and 'question' in
pattern and pattern.index('question') > pattern.index(r'(\d+)')`); that
condition is constant per pattern and evaluates to true exactly for the two
`mark[s]? in question` patterns. -/
structure MPat where
  pat : List RI
  marksFirst : Bool

def marksPatterns : List MPat :=
  [⟨m1Pat, false⟩, ⟨m2Pat, false⟩, ⟨m3Pat, false⟩, ⟨m4Pat, false⟩,
   ⟨m5Pat, false⟩, ⟨m6Pat, true⟩, ⟨m7Pat, true⟩]

/-- Body of the match loop (voice_processor.py:300-315): parse the two
captured groups, orient them, and keep the pair only when
`1 <= question_num <= 8 and 0 <= marks <= 10`. -/
def applyCaps (t : List Char) (mf : Bool) (d : List (Nat × Nat))
    (caps : List (Nat × Nat)) : List (Nat × Nat) :=
  match caps with
  | [(a1, b1), (a2, b2)] =>
    let g1 := toNatD (substrOf t a1 b1)
    let g2 := toNatD (substrOf t a2 b2)
    let q := if mf then g2 else g1
    let m := if mf then g1 else g2
    if 1 ≤ q ∧ q ≤ 8 ∧ 0 ≤ m ∧ m ≤ 10 then pyInsert d q m else d
  | _ => d

def applyPattern (t : List Char) (mp : MPat) (d : List (Nat × Nat)) :
    List (Nat × Nat) :=
  (finditer mp.pat t).foldl (applyCaps t mp.marksFirst) d

/-- `VoiceProcessor.extract_marks` (voice_processor.py:272-328): fix
transcription errors, scan the seven primary patterns in order, and if the
dict is still empty try the flexible fallback (whose group 1 is the score). -/
def extract_marks (text : List Char) : List (Nat × Nat) :=
  let t := fix_transcription_errors text
  let d := marksPatterns.foldl (fun d mp => applyPattern t mp d) []
  if d = [] then applyPattern t ⟨flexPat, true⟩ [] else d


/-!
Fuzzy roster matching (`DatabaseManager.fuzzy_find_student`, database.py:117-149).
`rapidfuzz.fuzz.ratio` is the normalized InDel similarity on a 0..100 scale:
`100 * (1 - (|s|+|t| - 2*lcs(s,t)) / (|s|+|t|))`, i.e. `200*lcs/(|s|+|t|)`,
and `100` for two empty strings.  `process.extractOne` scans the candidate
keys in order, ignores scores below the cutoff, and keeps the first
best-scoring key (later keys replace only on strictly larger score).
-/

/-- Longest common subsequence length; `fuel` bounds depth
(`|s| + |t|` always suffices, each step shortens the pair). -/
def lcsF : Nat → List Char → List Char → Nat
  | 0, _, _ => 0
  | _ + 1, [], _ => 0
  | _ + 1, _ :: _, [] => 0
  | f + 1, a :: as, b :: bs =>
    if a = b then lcsF f as bs + 1
    else max (lcsF f (a :: as) bs) (lcsF f as (b :: bs))

def lcsLen (s t : List Char) : Nat := lcsF (s.length + t.length) s t

/-- `fuzz.ratio` as an exact rational (the float it returns represents this
value; the program only compares it with 70 and with other scores). -/
def fratio (s t : List Char) : ℚ :=
  if s.length + t.length = 0 then 100
  else mkRat (200 * (lcsLen s t : Int)) (s.length + t.length)

/-- Scan of `process.extractOne(query, keys, scorer=fuzz.ratio, score_cutoff=70)`:
`best` is the current best (key, score). -/
def exoGo (q : List Char) : List (List Char) → Option (List Char × ℚ) →
    Option (List Char × ℚ)
  | [], best => best
  | k :: ks, best =>
    let sc := fratio q k
    match best with
    | none => exoGo q ks (if 70 ≤ sc then some (k, sc) else none)
    | some (bk, bs) => exoGo q ks (if bs < sc then some (k, sc) else some (bk, bs))

def extractOne (q : List Char) (keys : List (List Char)) : Option (List Char × ℚ) :=
  exoGo q keys none

/-- A roster row `(id, usn, name)` as read by `fuzzy_find_student`. -/
structure Student where
  id : Nat
  usn : List Char
  name : List Char
deriving DecidableEq

/-- The `choices` dict (database.py:132-136): for each student in order,
`choices[usn.lower()] = student; choices[name.lower()] = student`. -/
def buildChoicesGo : List (List Char × Student) → List Student →
    List (List Char × Student)
  | acc, [] => acc
  | acc, st :: rest =>
    buildChoicesGo (pyInsert (pyInsert acc (lowerStr st.usn) st) (lowerStr st.name) st) rest

def buildChoices (students : List Student) : List (List Char × Student) :=
  buildChoicesGo [] students

/-- Python-dict lookup. -/
def lookupKV {α β : Type} [DecidableEq α] : List (α × β) → α → Option β
  | [], _ => none
  | (k, v) :: rest, a => if k = a then some v else lookupKV rest a

/-- `DatabaseManager.fuzzy_find_student` (database.py:117-149). -/
def fuzzy_find_student (students : List Student) (identifier : List Char) :
    Option Student :=
  match students with
  | [] => none
  | _ :: _ =>
    let choices := buildChoices students
    match extractOne (lowerStr identifier) (choices.map Prod.fst) with
    | some (k, _) => lookupKV choices k
    | none => none

/-- An `attendance` table row. -/
structure AttRow where
  sid : Nat
  date : List Char
  status : List Char
deriving DecidableEq

/-- An `ia_marks` table row.  The eight question columns inserted by the
source are `marks_dict.get(i)` for i = 1..8; the row stores the dict itself,
which carries exactly that information. -/
structure IARow where
  sid : Nat
  iaType : List Char
  marks : List (Nat × Nat)
  total : Nat
deriving DecidableEq

/-- The store's state: roster plus the two record tables. -/
structure DB where
  students : List Student
  attendance : List AttRow
  ia_marks : List IARow
deriving DecidableEq

/-- `DatabaseManager.record_attendance` (database.py:151-168):
`INSERT OR REPLACE` keyed on (student_id, date); always succeeds (the caller
only passes statuses the CHECK constraint accepts). -/
def record_attendance (db : DB) (sid : Nat) (date status : List Char) :
    (Bool × List Char) × DB :=
  ((true, "Attendance recorded successfully".toList),
   { db with attendance :=
      (db.attendance.filter (fun r => decide (¬(r.sid = sid ∧ r.date = date)))) ++
      [⟨sid, date, status⟩] })

/-- `DatabaseManager.record_ia_marks` (database.py:170-198): validate the
question combination, then `INSERT OR REPLACE` keyed on (student_id, ia_type). -/
def record_ia_marks (db : DB) (sid : Nat) (iaType : List Char)
    (d : List (Nat × Nat)) (total : Nat) : (Bool × List Char) × DB :=
  if validate_question_combination d = false then
    (((false : Bool),
      ("Invalid question combination. Must select one from each pair: (Q1/Q2), (Q3/Q4), (Q5/Q6), (Q7/Q8)").toList),
     db)
  else
    ((true, iaType ++ " marks recorded successfully".toList),
     { db with ia_marks :=
        (db.ia_marks.filter (fun r => decide (¬(r.sid = sid ∧ r.iaType = iaType)))) ++
        [⟨sid, iaType, d, total⟩] })

def msgNoIdentify : List Char := "Could not identify student from command".toList

def msgNoStatus : List Char :=
  "Could not determine attendance status (Present/Absent)".toList

def msgStudentNotFound (ident : List Char) : List Char :=
  "Student \"".toList ++ ident ++ "\" not found in database".toList

def msgNoMarks : List Char := "Could not extract marks from command".toList

def msgTotalExceeds (total : Nat) : List Char :=
  "Total marks (".toList ++ natToStr total ++ ") exceeds maximum (40)".toList

def msgTranscribeFailed : List Char := "Failed to transcribe audio".toList

/-- Insertion sort by key, for `sorted(marks_dict.items())` (keys are unique,
so key order determines the sort). -/
def insortKV : Nat × Nat → List (Nat × Nat) → List (Nat × Nat)
  | p, [] => [p]
  | p, x :: rest => if p.1 ≤ x.1 then p :: x :: rest else x :: insortKV p rest

def sortKV (d : List (Nat × Nat)) : List (Nat × Nat) := d.foldr insortKV []

def qmStr (p : Nat × Nat) : List Char :=
  'Q' :: (natToStr p.1 ++ '=' :: natToStr p.2)

def joinComma : List (List Char) → List Char
  | [] => []
  | [x] => x
  | x :: xs => x ++ ", ".toList ++ joinComma xs

/-- `VoiceProcessor.process_attendance_command` (voice_processor.py:108-142).
Python's `if not identifier` treats both `None` and the empty string as
missing.  Note the source checks the attendance status *before* the roster
lookup. -/
def process_attendance_command (pfx : List Char) (db : DB) (text date : List Char) :
    (Bool × List Char) × DB :=
  let t := pystrip (lowerStr text)
  match extract_identifier pfx t with
  | none => ((false, msgNoIdentify), db)
  | some ident =>
    if ident = [] then ((false, msgNoIdentify), db)
    else
      match extract_attendance_status t with
      | none => ((false, msgNoStatus), db)
      | some status =>
        match fuzzy_find_student db.students ident with
        | none => ((false, msgStudentNotFound ident), db)
        | some st =>
          let r := record_attendance db st.id date status
          if r.1.1 then
            ((true, st.name ++ " (".toList ++ st.usn ++ ") marked ".toList ++
              status ++ " for ".toList ++ date), r.2)
          else ((false, r.1.2), r.2)

/-- `VoiceProcessor.process_marks_command` (voice_processor.py:144-187). -/
def process_marks_command (pfx : List Char) (db : DB) (text iaType : List Char) :
    (Bool × List Char) × DB :=
  let t := pystrip (lowerStr text)
  match extract_identifier pfx t with
  | none => ((false, msgNoIdentify), db)
  | some ident =>
    if ident = [] then ((false, msgNoIdentify), db)
    else
      match fuzzy_find_student db.students ident with
      | none => ((false, msgStudentNotFound ident), db)
      | some st =>
        let d := extract_marks t
        if d = [] then ((false, msgNoMarks), db)
        else
          let total := dsum d
          if 40 < total then ((false, msgTotalExceeds total), db)
          else
            let r := record_ia_marks db st.id iaType d total
            if r.1.1 then
              ((true, st.name ++ " (".toList ++ st.usn ++ ") - ".toList ++ iaType ++
                ": ".toList ++ joinComma ((sortKV d).map qmStr) ++
                ", Total: ".toList ++ natToStr total ++ "/40".toList), r.2)
            else ((false, r.1.2), r.2)

/-- `VoiceProcessor.process_text_command` (voice_processor.py:99-106). -/
def process_text_command (pfx : List Char) (db : DB)
    (text ctype date iaType : List Char) : (Bool × List Char) × DB :=
  if ctype = "attendance".toList then process_attendance_command pfx db text date
  else if ctype = "marks".toList then process_marks_command pfx db text iaType
  else ((false, "Invalid command type".toList), db)

/-- `VoiceProcessor.process_audio_file` (voice_processor.py:88-97).  The
transcription engine is external; its outcome is the `transcribed` argument
(`none` models `transcribe_audio` returning `None`, `some t` a returned
text — including the empty text). -/
def process_audio_file (pfx : List Char) (db : DB) (transcribed : Option (List Char))
    (ctype date iaType : List Char) : (Bool × List Char) × DB :=
  match transcribed with
  | none => ((false, msgTranscribeFailed), db)
  | some t => process_text_command pfx db t ctype date iaType


lemma pyInsert_mem {d : List (Nat × Nat)} {k v : Nat} {x : Nat × Nat}
    (hx : x ∈ pyInsert d k v) : x ∈ d ∨ x = (k, v) := by
  unfold pyInsert at hx
  split at hx
  · rcases List.mem_map.mp hx with ⟨p, hp, he⟩
    by_cases hk : p.1 = k
    · right
      simp only [hk, if_pos] at he
      exact he.symm
    · left
      simp only [hk, if_neg, not_false_iff, ite_false] at he
      exact he ▸ hp
  · rcases List.mem_append.mp hx with h | h
    · exact Or.inl h
    · right; simpa using h

lemma pyInsert_keys {d : List (Nat × Nat)} {k v : Nat} :
    (pyInsert d k v).map Prod.fst = d.map Prod.fst ∨
    (pyInsert d k v).map Prod.fst = d.map Prod.fst ++ [k] := by
  unfold pyInsert
  split
  · left
    rw [List.map_map]
    apply List.map_congr_left
    intro p _
    by_cases hk : p.1 = k <;> simp [hk]
  · right; simp

lemma pyInsert_keys_nodup {d : List (Nat × Nat)} {k v : Nat}
    (h : (d.map Prod.fst).Nodup) : ((pyInsert d k v).map Prod.fst).Nodup := by
  unfold pyInsert
  split
  · rw [List.map_map]
    have : (d.map (Prod.fst ∘ fun p => if p.1 = k then (k, v) else p)) = d.map Prod.fst := by
      apply List.map_congr_left
      intro p _
      by_cases hk : p.1 = k <;> simp [hk]
    rw [this]
    exact h
  · rename_i hnk
    simp only [List.map_append, List.map_cons, List.map_nil]
    rw [List.nodup_append]
    refine ⟨h, List.nodup_singleton k, ?_⟩
    intro a ha hb
    rw [List.mem_singleton] at hb
    subst hb
    exact hnk ha

/-- Range invariant preserved by one match of the loop body. -/
lemma applyCaps_inv {t : List Char} {mf : Bool} {d : List (Nat × Nat)}
    {caps : List (Nat × Nat)} {x : Nat × Nat}
    (hx : x ∈ applyCaps t mf d caps) :
    x ∈ d ∨ (1 ≤ x.1 ∧ x.1 ≤ 8 ∧ x.2 ≤ 10) := by
  unfold applyCaps at hx
  rcases caps with _ | ⟨⟨a1, b1⟩, _ | ⟨⟨a2, b2⟩, _ | _⟩⟩ <;>
    simp only at hx
  · exact Or.inl hx
  · exact Or.inl hx
  · cases mf <;> simp only [Bool.false_eq_true, if_true, if_false] at hx <;>
    · split at hx
      · rename_i hq
        rcases pyInsert_mem hx with h | h
        · exact Or.inl h
        · right
          subst h
          exact ⟨hq.1, hq.2.1, hq.2.2.2⟩
      · exact Or.inl hx
  · exact Or.inl hx

lemma applyCaps_keys_nodup {t : List Char} {mf : Bool} {d : List (Nat × Nat)}
    {caps : List (Nat × Nat)} (h : (d.map Prod.fst).Nodup) :
    ((applyCaps t mf d caps).map Prod.fst).Nodup := by
  unfold applyCaps
  rcases caps with _ | ⟨⟨a1, b1⟩, _ | ⟨⟨a2, b2⟩, _ | _⟩⟩ <;> simp only
  any_goals exact h
  cases mf <;> simp only [Bool.false_eq_true, if_true, if_false] <;>
  · split
    · exact pyInsert_keys_nodup h
    · exact h

lemma foldCaps_inv {t : List Char} {mf : Bool} (l : List (List (Nat × Nat)))
    (d : List (Nat × Nat)) {x : Nat × Nat}
    (hx : x ∈ l.foldl (applyCaps t mf) d) :
    x ∈ d ∨ (1 ≤ x.1 ∧ x.1 ≤ 8 ∧ x.2 ≤ 10) := by
  induction l generalizing d with
  | nil => exact Or.inl hx
  | cons c cs ih =>
    rcases ih (applyCaps t mf d c) hx with h | h
    · exact applyCaps_inv h
    · exact Or.inr h

lemma foldCaps_nodup {t : List Char} {mf : Bool} (l : List (List (Nat × Nat)))
    (d : List (Nat × Nat)) (h : (d.map Prod.fst).Nodup) :
    ((l.foldl (applyCaps t mf) d).map Prod.fst).Nodup := by
  induction l generalizing d with
  | nil => exact h
  | cons c cs ih => exact ih _ (applyCaps_keys_nodup h)

lemma applyPattern_inv {t : List Char} {mp : MPat} {d : List (Nat × Nat)}
    {x : Nat × Nat} (hx : x ∈ applyPattern t mp d) :
    x ∈ d ∨ (1 ≤ x.1 ∧ x.1 ≤ 8 ∧ x.2 ≤ 10) :=
  foldCaps_inv _ _ hx

lemma foldPatterns_inv {t : List Char} (ps : List MPat) (d : List (Nat × Nat))
    {x : Nat × Nat} (hx : x ∈ ps.foldl (fun d mp => applyPattern t mp d) d) :
    x ∈ d ∨ (1 ≤ x.1 ∧ x.1 ≤ 8 ∧ x.2 ≤ 10) := by
  induction ps generalizing d with
  | nil => exact Or.inl hx
  | cons p ps ih =>
    rcases ih (applyPattern t p d) hx with h | h
    · exact applyPattern_inv h
    · exact Or.inr h

lemma foldPatterns_nodup {t : List Char} (ps : List MPat) (d : List (Nat × Nat))
    (h : (d.map Prod.fst).Nodup) :
    ((ps.foldl (fun d mp => applyPattern t mp d) d).map Prod.fst).Nodup := by
  induction ps generalizing d with
  | nil => exact h
  | cons p ps ih => exact ih _ (foldCaps_nodup _ _ h)

lemma extract_marks_range {text : List Char} {x : Nat × Nat}
    (hx : x ∈ extract_marks text) : 1 ≤ x.1 ∧ x.1 ≤ 8 ∧ x.2 ≤ 10 := by
  unfold extract_marks at hx
  dsimp only at hx
  split at hx
  · rcases foldCaps_inv _ _ hx with h | h
    · simp at h
    · exact h
  · rcases foldPatterns_inv _ _ hx with h | h
    · simp at h
    · exact h

lemma extract_marks_nodup (text : List Char) :
    ((extract_marks text).map Prod.fst).Nodup := by
  unfold extract_marks
  dsimp only
  split
  · exact foldCaps_nodup _ _ (by simp)
  · exact foldPatterns_nodup _ _ (by simp)

/-- C4: every (question, score) pair in the MarksSet returned by
`extract_marks` — from the primary patterns or the fallback — satisfies
1 ≤ question ≤ 8 and 0 ≤ score ≤ 10; out-of-range pairs are never returned. -/
theorem claim_C4 (text : List Char) (x : Nat × Nat) (hx : x ∈ extract_marks text) :
    1 ≤ x.1 ∧ x.1 ≤ 8 ∧ 0 ≤ x.2 ∧ x.2 ≤ 10 := by
  rcases extract_marks_range hx with ⟨h1, h2, h3⟩
  exact ⟨h1, h2, Nat.zero_le _, h3⟩

theorem claim_C4_witness :
    ((1, 8) ∈ extract_marks ("q1-8".toList)) ∧
      (1 ≤ (1, 8).1 ∧ (1, 8).1 ≤ 8 ∧ 0 ≤ (1, 8).2 ∧ (1, 8).2 ≤ 10) :=
  ⟨by decide, claim_C4 ("q1-8".toList) (1, 8) (by decide)⟩


lemma marks_insert_validated (pfx : List Char) (db : DB) (text iaType : List Char) :
    ∀ row ∈ (process_marks_command pfx db text iaType).2.ia_marks,
      row ∉ db.ia_marks →
        validate_question_combination row.marks = true ∧ dsum row.marks ≤ 40 ∧
        (row.marks.map Prod.fst).Nodup := by
  intro row hrow hnew
  unfold process_marks_command at hrow
  dsimp only at hrow
  split at hrow
  · exact absurd hrow hnew
  · split at hrow
    · exact absurd hrow hnew
    · split at hrow
      · exact absurd hrow hnew
      · rename_i st hst
        split at hrow
        · exact absurd hrow hnew
        · rename_i hdne
          split at hrow
          · exact absurd hrow hnew
          · rename_i htot
            split at hrow <;>
            · unfold record_ia_marks at hrow
              split at hrow
              · exact absurd hrow hnew
              · rename_i hval
                simp only at hrow
                rcases List.mem_append.mp hrow with h | h
                · exact absurd (List.mem_of_mem_filter h) hnew
                · rw [List.mem_singleton] at h
                  subst h
                  refine ⟨eq_true_of_ne_false hval, by dsimp only; omega, ?_⟩
                  exact extract_marks_nodup _

lemma marks_violating_fails (pfx : List Char) (db : DB) (text iaType : List Char)
    (hviol : ¬(validate_question_combination (extract_marks (pystrip (lowerStr text))) = true ∧
        dsum (extract_marks (pystrip (lowerStr text))) ≤ 40)) :
    (process_marks_command pfx db text iaType).1.1 = false ∧
    (process_marks_command pfx db text iaType).2.ia_marks = db.ia_marks := by
  unfold process_marks_command
  dsimp only
  split
  · simp
  · split
    · simp
    · split
      · simp
      · split
        · simp
        · split
          · simp
          · rename_i st hst hdne htot
            have hval : validate_question_combination
                (extract_marks (pystrip (lowerStr text))) = false := by
              rcases Bool.eq_false_or_eq_true
                (validate_question_combination (extract_marks (pystrip (lowerStr text)))) with
                h | h
              · exact absurd ⟨h, by omega⟩ hviol
              · exact h
            unfold record_ia_marks
            rw [hval]
            simp

/-- C3: whenever `process_marks_command` actually inserts a row into the marks
store, the persisted MarksSet has exactly 4 entries with exactly one key from
each of the pairs (1,2),(3,4),(5,6),(7,8), and the sum of its scores is at
most 40; and a command whose extracted MarksSet violates either condition
ends unsuccessfully with the marks table unchanged. -/
theorem claim_C3 (pfx : List Char) (db : DB) (text iaType : List Char) :
    (∀ row ∈ (process_marks_command pfx db text iaType).2.ia_marks,
        row ∉ db.ia_marks →
          row.marks.length = 4 ∧ ExactlyOnePerPair (row.marks.map Prod.fst) ∧
          dsum row.marks ≤ 40) ∧
    (¬(validate_question_combination (extract_marks (pystrip (lowerStr text))) = true ∧
          dsum (extract_marks (pystrip (lowerStr text))) ≤ 40) →
      (process_marks_command pfx db text iaType).1.1 = false ∧
      (process_marks_command pfx db text iaType).2.ia_marks = db.ia_marks) := by
  constructor
  · intro row hrow hnew
    rcases marks_insert_validated pfx db text iaType row hrow hnew with ⟨hv, hs, hnd⟩
    have hone := (validate_iff row.marks hnd).mp hv
    rcases hone with ⟨a, b, c, e, ha, hb, hc, he, hperm⟩
    refine ⟨?_, ⟨a, b, c, e, ha, hb, hc, he, hperm⟩, hs⟩
    have := length_eq_four_of_perm hperm
    simpa using this
  · exact marks_violating_fails pfx db text iaType

theorem claim_C3_witness :
    (((⟨1, "IA1".toList, [(1, 8), (3, 7), (5, 9), (7, 8)], 32⟩ : IARow) ∈
        (process_marks_command [] ⟨[⟨1, "b1".toList, "bo".toList⟩], [], []⟩
          ("bo has q1-8 q3-7 q5-9 q7-8".toList) ("IA1".toList)).2.ia_marks ∧
      (⟨1, "IA1".toList, [(1, 8), (3, 7), (5, 9), (7, 8)], 32⟩ : IARow) ∉
        (⟨[⟨1, "b1".toList, "bo".toList⟩], [], []⟩ : DB).ia_marks) ∧
      ((⟨1, "IA1".toList, [(1, 8), (3, 7), (5, 9), (7, 8)], 32⟩ : IARow).marks.length = 4 ∧
        ExactlyOnePerPair
          ((⟨1, "IA1".toList, [(1, 8), (3, 7), (5, 9), (7, 8)], 32⟩ : IARow).marks.map
            Prod.fst) ∧
        dsum (⟨1, "IA1".toList, [(1, 8), (3, 7), (5, 9), (7, 8)], 32⟩ : IARow).marks ≤ 40)) ∧
    (¬(validate_question_combination
          (extract_marks (pystrip (lowerStr ("xx has scored 9 marks in question 1".toList)))) = true ∧
        dsum (extract_marks (pystrip (lowerStr ("xx has scored 9 marks in question 1".toList)))) ≤ 40) ∧
      (process_marks_command [] ⟨[], [], []⟩
          ("xx has scored 9 marks in question 1".toList) ("IA1".toList)).1.1 = false ∧
      (process_marks_command [] ⟨[], [], []⟩
          ("xx has scored 9 marks in question 1".toList) ("IA1".toList)).2.ia_marks =
        (⟨[], [], []⟩ : DB).ia_marks) :=
  ⟨⟨⟨by decide, by decide⟩,
    (claim_C3 [] ⟨[⟨1, "b1".toList, "bo".toList⟩], [], []⟩
      ("bo has q1-8 q3-7 q5-9 q7-8".toList) ("IA1".toList)).1 _ (by decide) (by decide)⟩,
   ⟨by decide,
    (claim_C3 [] ⟨[], [], []⟩ ("xx has scored 9 marks in question 1".toList)
      ("IA1".toList)).2 (by decide)⟩⟩


/-- C9 counterexample: a transcription that returns the *empty* text is not
treated as a transcription failure — processing continues into the text
pipeline and fails at identifier extraction instead (with the marks/roster
steps genuinely attempted after transcription, contrary to the claim). -/
theorem claim_C9_counterexample :
    (process_audio_file [] ⟨[], [], []⟩ (some []) ("attendance".toList)
        ("2024-01-01".toList) ("IA1".toList)).1 = (false, msgNoIdentify) ∧
    msgNoIdentify ≠ msgTranscribeFailed := by decide

/-- C9 (amended): only a `None` transcription result (the engine's failure
signal) terminates processing with the transcription-failure outcome and an
untouched store; a returned text — the empty text included — is handed to
`process_text_command`. -/
theorem claim_C9 (pfx : List Char) (db : DB) (tr : Option (List Char))
    (ctype date iaType : List Char) :
    (tr = none →
      process_audio_file pfx db tr ctype date iaType =
        ((false, msgTranscribeFailed), db)) ∧
    (∀ t, tr = some t →
      process_audio_file pfx db tr ctype date iaType =
        process_text_command pfx db t ctype date iaType) := by
  constructor
  · intro h
    subst h
    rfl
  · intro t h
    subst h
    rfl

theorem claim_C9_witness :
    ((none : Option (List Char)) = none ∧
      process_audio_file [] ⟨[], [], []⟩ none ("attendance".toList)
          ("2024-01-01".toList) ("IA1".toList) =
        ((false, msgTranscribeFailed), ⟨[], [], []⟩)) ∧
    ((some ("x".toList) : Option (List Char)) = some ("x".toList) ∧
      process_audio_file [] ⟨[], [], []⟩ (some ("x".toList)) ("attendance".toList)
          ("2024-01-01".toList) ("IA1".toList) =
        process_text_command [] ⟨[], [], []⟩ ("x".toList) ("attendance".toList)
          ("2024-01-01".toList) ("IA1".toList)) :=
  ⟨⟨rfl, (claim_C9 [] ⟨[], [], []⟩ none ("attendance".toList) ("2024-01-01".toList)
      ("IA1".toList)).1 rfl⟩,
   ⟨rfl, (claim_C9 [] ⟨[], [], []⟩ (some ("x".toList)) ("attendance".toList)
      ("2024-01-01".toList) ("IA1".toList)).2 ("x".toList) rfl⟩⟩

/-- C5 counterexample: on "usn 24 is here" with an empty roster the extracted
identifier "24" resolves to no roster entry, yet the outcome is the
status-not-found failure, not the student-not-found one: the source checks
the attendance status *before* the roster lookup. -/
theorem claim_C5_counterexample :
    extract_identifier [] (pystrip (lowerStr ("usn 24 is here".toList))) =
      some ("24".toList) ∧
    fuzzy_find_student ([] : List Student) ("24".toList) = none ∧
    (process_attendance_command [] ⟨[], [], []⟩ ("usn 24 is here".toList)
        ("2024-01-01".toList)).1 = (false, msgNoStatus) ∧
    msgNoStatus ≠ msgStudentNotFound ("24".toList) := by decide

lemma head_noIdentify : msgNoIdentify.head? = some 'C' := rfl

lemma head_noStatus : msgNoStatus.head? = some 'C' := rfl

lemma head_studentNotFound (i : List Char) :
    (msgStudentNotFound i).head? = some 'S' := rfl

/-- C5 (amended): in attendance processing the status-extraction step
precedes the roster-match step: a command with a usable extracted identifier
whose transcript contains neither "present" nor "absent" ends with the
StatusNotFound failure regardless of the roster, and the StudentNotFound
failure can only occur when a status was found. -/
theorem claim_C5 (pfx : List Char) (db : DB) (text date : List Char) :
    (∀ i, extract_identifier pfx (pystrip (lowerStr text)) = some i → i ≠ [] →
      extract_attendance_status (pystrip (lowerStr text)) = none →
      process_attendance_command pfx db text date = ((false, msgNoStatus), db)) ∧
    (∀ i, (process_attendance_command pfx db text date).1 =
        (false, msgStudentNotFound i) →
      extract_attendance_status (pystrip (lowerStr text)) ≠ none) := by
  constructor
  · intro i hi hne hst
    unfold process_attendance_command
    dsimp only
    rw [hi]
    simp only [hne, if_neg, if_false]
    rw [hst]
  · intro i h hst
    unfold process_attendance_command at h
    dsimp only at h
    split at h
    · have hh := congrArg (fun p => p.2.head?) h
      simp only [head_noIdentify, head_studentNotFound] at hh
      exact absurd hh (by decide)
    · split at h
      · have hh := congrArg (fun p => p.2.head?) h
        simp only [head_noIdentify, head_studentNotFound] at hh
        exact absurd hh (by decide)
      · rw [hst] at h
        have hh := congrArg (fun p => p.2.head?) h
        simp only [head_noStatus, head_studentNotFound] at hh
        exact absurd hh (by decide)

theorem claim_C5_witness :
    ((extract_identifier [] (pystrip (lowerStr ("usn 99 is here".toList))) =
        some ("99".toList) ∧
      ("99".toList : List Char) ≠ [] ∧
      extract_attendance_status (pystrip (lowerStr ("usn 99 is here".toList))) = none) ∧
    process_attendance_command [] ⟨[⟨1, "b1".toList, "bo".toList⟩], [], []⟩
        ("usn 99 is here".toList) ("2024-01-01".toList) =
      ((false, msgNoStatus), ⟨[⟨1, "b1".toList, "bo".toList⟩], [], []⟩)) :=
  ⟨⟨by decide, by decide, by decide⟩,
   (claim_C5 [] ⟨[⟨1, "b1".toList, "bo".toList⟩], [], []⟩ ("usn 99 is here".toList)
      ("2024-01-01".toList)).1 ("99".toList) (by decide) (by decide) (by decide)⟩

/-- C6 counterexample: the source guard is `len(usn_part) <= 3`, so on
"usn 5" with a configured prefix the one-digit token *is* expanded
("abc" ++ "5"), while the claim requires it returned verbatim. -/
theorem claim_C6_counterexample :
    p1Match ("usn 5".toList) = some ("5".toList) ∧
    ("5".toList).length = 1 ∧ pyIsDigitStr ("5".toList) = true ∧
    extract_identifier ("abc".toList) ("usn 5".toList) = some ("abc5".toList) ∧
    some ("abc5".toList) ≠ some ("5".toList) := by decide

/-- C6 (amended): whenever the transcript contains "usn" followed by a token
(the `usn\s+(\w+)` rule matches, yielding that token), the extractor applies
prefix expansion iff the token is purely numeric AND *at most three* digits
long AND a non-empty prefix is configured; in every other case the token is
returned verbatim. -/
theorem claim_C6 (pfx text tok : List Char) (h : p1Match text = some tok) :
    extract_identifier pfx text =
      some (if pyIsDigitStr tok = true ∧ tok.length ≤ 3 ∧ pfx ≠ []
        then expand_usn pfx tok else tok) := by
  unfold extract_identifier
  rw [h]
  exact (apply_ite some _ _ _).symm

theorem claim_C6_witness :
    (p1Match ("usn 24 is present".toList) = some ("24".toList)) ∧
    extract_identifier ("1GA23CI0".toList) ("usn 24 is present".toList) =
      some (if pyIsDigitStr ("24".toList) = true ∧ ("24".toList).length ≤ 3 ∧
          ("1GA23CI0".toList : List Char) ≠ []
        then expand_usn ("1GA23CI0".toList) ("24".toList) else "24".toList) :=
  ⟨by decide, claim_C6 ("1GA23CI0".toList) ("usn 24 is present".toList)
    ("24".toList) (by decide)⟩

/-- C10 counterexample: on "  is present" the lazy `^([\w\s]+?)` span is the
single space, every list of words of its strip is empty, and the extractor
returns the *empty string* — so not every returned identifier is non-empty. -/
theorem claim_C10_counterexample :
    p2Match ("  is present".toList) = some (" ".toList) ∧
    extract_identifier [] ("  is present".toList) = some ([] : List Char) := by decide

lemma p4Go_long {l : List (List Char)} {w : List Char} (hw : w ∈ p4Go l) :
    1 < w.length := by
  induction l with
  | nil => simp [p4Go] at hw
  | cons x xs ih =>
    unfold p4Go at hw
    split at hw
    · simp at hw
    · split at hw
      · rcases List.mem_cons.mp hw with h | h
        · subst h
          rename_i hc
          exact hc.2.1
        · exact ih h
      · exact ih hw

lemma cleanName_all_noise (span : List Char)
    (hnoise : ∀ w ∈ pysplit (pystrip span), lowerStr w ∈ noiseWords) :
    cleanName span = pystrip span := by
  have hfilter : (pysplit (pystrip span)).filter
      (fun w => decide ((lowerStr w) ∉ noiseWords)) = [] := by
    rw [List.filter_eq_nil]
    intro w hmem
    simp only [decide_eq_true_eq]
    exact not_not_intro (hnoise w hmem)
  unfold cleanName
  dsimp only
  rw [hfilter]
  simp

/-- C10 (amended): when the name span captured by the `is present|absent`
rule, or by the `scored`/`has`/`ia1|ia2` rule, consists of words that are
all stop words, the stripped span itself is returned (stop words included)
and it is non-empty; identifiers produced by the fallback rule are likewise
non-empty.  But a whitespace-only capture strips to the empty string, which
is returned, so rules 2 and 3 can yield an empty identifier (see the
counterexample); callers treat it as "not identified". -/
theorem claim_C10 (pfx text span : List Char) :
    (p1Match text = none →
      (if pfx = [] then none else p15Match text) = none →
      p2Match text = some span →
      pysplit (pystrip span) ≠ [] →
      (∀ w ∈ pysplit (pystrip span), lowerStr w ∈ noiseWords) →
      extract_identifier pfx text = some (pystrip span) ∧ pystrip span ≠ []) ∧
    (p1Match text = none →
      (if pfx = [] then none else p15Match text) = none →
      p2Match text = none →
      p3Match text = some span →
      pysplit (pystrip span) ≠ [] →
      (∀ w ∈ pysplit (pystrip span), lowerStr w ∈ noiseWords) →
      extract_identifier pfx text = some (pystrip span) ∧ pystrip span ≠ []) ∧
    (∀ r, p4Extract text = some r → r ≠ []) := by
  refine ⟨?_, ?_, ?_⟩
  · intro h1 h15 h2 hw hnoise
    have hclean := cleanName_all_noise span hnoise
    constructor
    · unfold extract_identifier
      rw [h1, h15, h2]
      dsimp only
      rw [hclean]
    · intro hnil
      rw [hnil] at hw
      exact hw rfl
  · intro h1 h15 h2 h3 hw hnoise
    have hclean := cleanName_all_noise span hnoise
    constructor
    · unfold extract_identifier
      rw [h1, h15, h2, h3]
      dsimp only
      rw [hclean]
    · intro hnil
      rw [hnil] at hw
      exact hw rfl
  · intro r hr
    unfold p4Extract at hr
    dsimp only at hr
    split at hr
    · exact absurd hr (by simp)
    · rename_i hne
      have hr2 : r = joinSpace (p4Go (pysplit text)) := by
        injection hr with hr2
        exact hr2.symm
      subst hr2
      rcases hgo : p4Go (pysplit text) with _ | ⟨w, ws⟩
      · exact absurd hgo hne
      · have hwlen : 1 < w.length := p4Go_long (by rw [hgo]; exact List.mem_cons_self w ws)
        rcases ws with _ | ⟨w2, ws2⟩
        · unfold joinSpace
          intro hj
          rw [hj] at hwlen
          simp at hwlen
        · unfold joinSpace
          intro hj
          rcases List.append_eq_nil.mp hj with ⟨hw1, _⟩
          rw [hw1] at hwlen
          simp at hwlen

theorem claim_C10_witness :
    ((p1Match ("the has is present".toList) = none ∧
        (if ([] : List Char) = [] then none else p15Match ("the has is present".toList)) = none ∧
        p2Match ("the has is present".toList) = some ("the has".toList) ∧
        pysplit (pystrip ("the has".toList)) ≠ [] ∧
        (∀ w ∈ pysplit (pystrip ("the has".toList)), lowerStr w ∈ noiseWords)) ∧
      (extract_identifier [] ("the has is present".toList) =
          some (pystrip ("the has".toList)) ∧
        pystrip ("the has".toList) ≠ [])) ∧
    ((p1Match ("the has scored 5".toList) = none ∧
        (if ([] : List Char) = [] then none else p15Match ("the has scored 5".toList)) = none ∧
        p2Match ("the has scored 5".toList) = none ∧
        p3Match ("the has scored 5".toList) = some ("the".toList) ∧
        pysplit (pystrip ("the".toList)) ≠ [] ∧
        (∀ w ∈ pysplit (pystrip ("the".toList)), lowerStr w ∈ noiseWords)) ∧
      (extract_identifier [] ("the has scored 5".toList) =
          some (pystrip ("the".toList)) ∧
        pystrip ("the".toList) ≠ [])) ∧
    (p4Extract ("bob jones".toList) = some ("bob jones".toList) ∧
      ("bob jones".toList : List Char) ≠ []) :=
  ⟨⟨⟨by decide, by decide, by decide, by decide, by decide⟩,
    (claim_C10 [] ("the has is present".toList) ("the has".toList)).1
      (by decide) (by decide) (by decide) (by decide) (by decide)⟩,
   ⟨⟨by decide, by decide, by decide, by decide, by decide, by decide⟩,
    (claim_C10 [] ("the has scored 5".toList) ("the".toList)).2.1
      (by decide) (by decide) (by decide) (by decide) (by decide) (by decide)⟩,
   ⟨by decide,
    (claim_C10 [] ("bob jones".toList) ([] : List Char)).2.2 ("bob jones".toList)
      (by decide)⟩⟩


lemma lcsF_nil_left (f : Nat) (t : List Char) : lcsF f [] t = 0 := by
  cases f <;> rfl

lemma lcsF_nil_right (f : Nat) (s : List Char) : lcsF f s [] = 0 := by
  cases f <;> cases s <;> rfl

lemma lcsF_fuel : ∀ f g (s t : List Char), s.length + t.length ≤ f →
    s.length + t.length ≤ g → lcsF f s t = lcsF g s t := by
  intro f
  induction f with
  | zero =>
    intro g s t hf _
    have hs : s = [] := by
      cases s
      · rfl
      · simp at hf
    subst hs
    rw [lcsF_nil_left, lcsF_nil_left]
  | succ f ih =>
    intro g s t hf hg
    cases s with
    | nil => rw [lcsF_nil_left, lcsF_nil_left]
    | cons a as =>
      cases t with
      | nil => rw [lcsF_nil_right, lcsF_nil_right]
      | cons b bs =>
        cases g with
        | zero => simp at hg
        | succ g =>
          simp only [List.length_cons] at hf hg
          simp only [lcsF]
          by_cases hab : a = b
          · rw [if_pos hab, if_pos hab,
              ih g as bs (by omega) (by omega)]
          · rw [if_neg hab, if_neg hab,
              ih g (a :: as) bs (by simp; omega) (by simp; omega),
              ih g as (b :: bs) (by simp; omega) (by simp; omega)]

lemma lcsF_self : ∀ (s : List Char) f, 2 * s.length ≤ f → lcsF f s s = s.length := by
  intro s
  induction s with
  | nil => intro f _; rw [lcsF_nil_left]; rfl
  | cons a as ih =>
    intro f hf
    cases f with
    | zero => simp at hf
    | succ f =>
      have hstep : lcsF (f + 1) (a :: as) (a :: as) = lcsF f as as + 1 := by
        simp [lcsF]
      simp only [List.length_cons] at hf ⊢
      rw [hstep, ih f (by omega)]

lemma lcsF_le_left : ∀ f (s t : List Char), lcsF f s t ≤ s.length := by
  intro f
  induction f with
  | zero => intro s t; simp [lcsF]
  | succ f ih =>
    intro s t
    cases s with
    | nil => rw [lcsF_nil_left]; exact Nat.zero_le _
    | cons a as =>
      cases t with
      | nil => rw [lcsF_nil_right]; exact Nat.zero_le _
      | cons b bs =>
        simp only [lcsF]
        by_cases hab : a = b
        · rw [if_pos hab]
          simp only [List.length_cons]
          exact Nat.succ_le_succ (ih as bs)
        · rw [if_neg hab]
          apply Nat.max_le.mpr
          constructor
          · exact ih (a :: as) bs
          · exact Nat.le_trans (ih as (b :: bs)) (by simp)

lemma lcsF_le_right : ∀ f (s t : List Char), lcsF f s t ≤ t.length := by
  intro f
  induction f with
  | zero => intro s t; simp [lcsF]
  | succ f ih =>
    intro s t
    cases s with
    | nil => rw [lcsF_nil_left]; exact Nat.zero_le _
    | cons a as =>
      cases t with
      | nil => rw [lcsF_nil_right]; exact Nat.zero_le _
      | cons b bs =>
        simp only [lcsF]
        by_cases hab : a = b
        · rw [if_pos hab]
          simp only [List.length_cons]
          exact Nat.succ_le_succ (ih as bs)
        · rw [if_neg hab]
          apply Nat.max_le.mpr
          constructor
          · exact Nat.le_trans (ih (a :: as) bs) (by simp)
          · exact ih as (b :: bs)

lemma lcsF_max_eq : ∀ f (s t : List Char), s.length + t.length ≤ f →
    lcsF f s t = s.length → s.length = t.length → s = t := by
  intro f
  induction f with
  | zero =>
    intro s t hf hv hl
    cases s with
    | nil =>
      cases t with
      | nil => rfl
      | cons b bs => simp at hl
    | cons a as => simp at hf
  | succ f ih =>
    intro s t hf hv hl
    cases s with
    | nil =>
      cases t with
      | nil => rfl
      | cons b bs => simp at hl
    | cons a as =>
      cases t with
      | nil => simp at hl
      | cons b bs =>
        by_cases hab : a = b
        · subst hab
          have hstep : lcsF (f + 1) (a :: as) (a :: bs) = lcsF f as bs + 1 := by
            simp [lcsF]
          rw [hstep] at hv
          simp only [List.length_cons] at hf hv hl
          have has : as = bs :=
            ih as bs (by omega) (by omega) (by omega)
          rw [has]
        · exfalso
          simp only [lcsF, if_neg hab] at hv
          have h1 : lcsF f (a :: as) bs ≤ bs.length := lcsF_le_right f _ _
          have h2 : lcsF f as (b :: bs) ≤ as.length := lcsF_le_left f _ _
          simp only [List.length_cons] at hl hv
          have : bs.length = as.length := by omega
          omega

lemma lcsLen_self (s : List Char) : lcsLen s s = s.length :=
  lcsF_self s (s.length + s.length) (by omega)

lemma lcsLen_le_left (s t : List Char) : lcsLen s t ≤ s.length := lcsF_le_left _ _ _

lemma lcsLen_le_right (s t : List Char) : lcsLen s t ≤ t.length := lcsF_le_right _ _ _

lemma lcsLen_eq_iff {s t : List Char} (hv : lcsLen s t = s.length)
    (hl : s.length = t.length) : s = t :=
  lcsF_max_eq _ s t (Nat.le_refl _) hv hl

lemma fratio_self (s : List Char) : fratio s s = 100 := by
  unfold fratio
  by_cases h : s.length + s.length = 0
  · rw [if_pos h]
  · rw [if_neg h, lcsLen_self, Rat.mkRat_eq_div]
    have hd : (((s.length + s.length : Nat)) : ℚ) ≠ 0 := Nat.cast_ne_zero.mpr h
    rw [div_eq_iff hd]
    push_cast
    ring

lemma fratio_le_100 (s t : List Char) : fratio s t ≤ 100 := by
  unfold fratio
  by_cases h : s.length + t.length = 0
  · rw [if_pos h]
  · rw [if_neg h, Rat.mkRat_eq_div]
    have hpos : (0 : ℚ) < ((s.length + t.length : Nat) : ℚ) := by
      exact_mod_cast Nat.pos_of_ne_zero h
    rw [div_le_iff hpos]
    have h1 : lcsLen s t ≤ s.length := lcsLen_le_left s t
    have h2 : lcsLen s t ≤ t.length := lcsLen_le_right s t
    have : (200 : ℚ) * (lcsLen s t : ℚ) ≤ 100 * ((s.length + t.length : Nat) : ℚ) := by
      push_cast
      have : 2 * (lcsLen s t) ≤ s.length + t.length := by omega
      have hq : ((2 * lcsLen s t : Nat) : ℚ) ≤ ((s.length + t.length : Nat) : ℚ) := by
        exact_mod_cast this
      push_cast at hq
      linarith
    push_cast at this ⊢
    linarith

lemma fratio_eq_100 {s t : List Char} (h : fratio s t = 100) : s = t := by
  unfold fratio at h
  by_cases h0 : s.length + t.length = 0
  · have hs : s = [] := by
      cases s with
      | nil => rfl
      | cons a as => simp at h0
    have ht : t = [] := by
      cases t with
      | nil => rfl
      | cons b bs => rw [hs] at h0; simp at h0
    rw [hs, ht]
  · rw [if_neg h0, Rat.mkRat_eq_div] at h
    have hpos : (0 : ℚ) < ((s.length + t.length : Nat) : ℚ) := by
      exact_mod_cast Nat.pos_of_ne_zero h0
    rw [div_eq_iff (ne_of_gt hpos)] at h
    have h1 : lcsLen s t ≤ s.length := lcsLen_le_left s t
    have h2 : lcsLen s t ≤ t.length := lcsLen_le_right s t
    have hnat : 200 * lcsLen s t = 100 * (s.length + t.length) := by
      have : ((200 * lcsLen s t : Nat) : ℚ) = ((100 * (s.length + t.length) : Nat) : ℚ) := by
        push_cast
        push_cast at h
        linarith
      exact_mod_cast this
    have hls : lcsLen s t = s.length := by omega
    have hlt : s.length = t.length := by omega
    exact lcsLen_eq_iff hls hlt


lemma exo_sound (q : List Char) : ∀ (ks : List (List Char))
    (best : Option (List Char × ℚ)),
    (∀ bk bs, best = some (bk, bs) → bs = fratio q bk ∧ 70 ≤ bs) →
    ∀ k sc, exoGo q ks best = some (k, sc) → sc = fratio q k ∧ 70 ≤ sc := by
  intro ks
  induction ks with
  | nil =>
    intro best hbest k sc h
    exact hbest k sc h
  | cons k0 ks ih =>
    intro best hbest k sc h
    cases best with
    | none =>
      have hstep : exoGo q (k0 :: ks) none =
          exoGo q ks (if 70 ≤ fratio q k0 then some (k0, fratio q k0) else none) := rfl
      rw [hstep] at h
      refine ih _ ?_ k sc h
      intro bk bs hb
      by_cases h70 : 70 ≤ fratio q k0
      · rw [if_pos h70] at hb
        injection hb with hb1
        have hk : bk = k0 := (congrArg Prod.fst hb1).symm
        have hs : bs = fratio q k0 := (congrArg Prod.snd hb1).symm
        subst hk
        exact ⟨hs, hs ▸ h70⟩
      · rw [if_neg h70] at hb
        exact absurd hb (by simp)
    | some p =>
      rcases p with ⟨bk0, bs0⟩
      have hstep : exoGo q (k0 :: ks) (some (bk0, bs0)) =
          exoGo q ks (if bs0 < fratio q k0 then some (k0, fratio q k0)
            else some (bk0, bs0)) := rfl
      rw [hstep] at h
      refine ih _ ?_ k sc h
      intro bk bs hb
      rcases hbest bk0 bs0 rfl with ⟨hb0, h70b⟩
      by_cases hlt : bs0 < fratio q k0
      · rw [if_pos hlt] at hb
        injection hb with hb1
        have hk : bk = k0 := (congrArg Prod.fst hb1).symm
        have hs : bs = fratio q k0 := (congrArg Prod.snd hb1).symm
        subst hk
        refine ⟨hs, ?_⟩
        rw [hs]
        exact le_of_lt (lt_of_le_of_lt h70b hlt)
      · rw [if_neg hlt] at hb
        injection hb with hb1
        have hk : bk = bk0 := (congrArg Prod.fst hb1).symm
        have hs : bs = bs0 := (congrArg Prod.snd hb1).symm
        subst hk
        exact ⟨hs ▸ hb0, hs ▸ h70b⟩

lemma exo_mono (q : List Char) : ∀ (ks : List (List Char)) (bk : List Char) (bs : ℚ),
    ∃ k sc, exoGo q ks (some (bk, bs)) = some (k, sc) ∧ bs ≤ sc := by
  intro ks
  induction ks with
  | nil => intro bk bs; exact ⟨bk, bs, rfl, le_refl bs⟩
  | cons k0 ks ih =>
    intro bk bs
    unfold exoGo
    dsimp only
    split
    · rename_i hlt
      rcases ih k0 (fratio q k0) with ⟨k, sc, he, hle⟩
      exact ⟨k, sc, he, le_of_lt (lt_of_lt_of_le hlt hle)⟩
    · exact ih bk bs

lemma exo_hit (q : List Char) : ∀ (ks : List (List Char))
    (best : Option (List Char × ℚ)) (k0 : List Char), k0 ∈ ks →
    70 ≤ fratio q k0 →
    ∃ k sc, exoGo q ks best = some (k, sc) ∧ fratio q k0 ≤ sc := by
  intro ks
  induction ks with
  | nil => intro best k0 h; simp at h
  | cons k1 ks ih =>
    intro best k0 hmem h70
    rcases List.mem_cons.mp hmem with heq | htail
    · subst heq
      cases best with
      | none =>
        have hstep : exoGo q (k0 :: ks) none =
            exoGo q ks (if 70 ≤ fratio q k0 then some (k0, fratio q k0) else none) := rfl
        rw [hstep, if_pos h70]
        rcases exo_mono q ks k0 (fratio q k0) with ⟨k, sc, he, hle⟩
        exact ⟨k, sc, he, hle⟩
      | some p =>
        rcases p with ⟨bk0, bs0⟩
        have hstep : exoGo q (k0 :: ks) (some (bk0, bs0)) =
            exoGo q ks (if bs0 < fratio q k0 then some (k0, fratio q k0)
              else some (bk0, bs0)) := rfl
        rw [hstep]
        by_cases hlt : bs0 < fratio q k0
        · rw [if_pos hlt]
          rcases exo_mono q ks k0 (fratio q k0) with ⟨k, sc, he, hle⟩
          exact ⟨k, sc, he, hle⟩
        · rw [if_neg hlt]
          push_neg at hlt
          rcases exo_mono q ks bk0 bs0 with ⟨k, sc, he, hle⟩
          exact ⟨k, sc, he, le_trans hlt hle⟩
    · cases best with
      | none =>
        have hstep : exoGo q (k1 :: ks) none =
            exoGo q ks (if 70 ≤ fratio q k1 then some (k1, fratio q k1) else none) := rfl
        rw [hstep]
        exact ih _ k0 htail h70
      | some p =>
        rcases p with ⟨bk0, bs0⟩
        have hstep : exoGo q (k1 :: ks) (some (bk0, bs0)) =
            exoGo q ks (if bs0 < fratio q k1 then some (k1, fratio q k1)
              else some (bk0, bs0)) := rfl
        rw [hstep]
        exact ih _ k0 htail h70

lemma exo_allLow (q : List Char) : ∀ (ks : List (List Char)),
    (∀ k ∈ ks, fratio q k < 70) → exoGo q ks none = none := by
  intro ks
  induction ks with
  | nil => intro _; rfl
  | cons k0 ks ih =>
    intro hall
    unfold exoGo
    dsimp only
    have h0 : fratio q k0 < 70 := hall k0 (List.mem_cons_self k0 ks)
    rw [if_neg (not_le.mpr h0)]
    exact ih (fun k hk => hall k (List.mem_cons_of_mem k0 hk))

lemma pyInsert_mem_kv {α β : Type} [DecidableEq α] {d : List (α × β)} {k : α}
    {v : β} {x : α × β} (hx : x ∈ pyInsert d k v) : x ∈ d ∨ x = (k, v) := by
  unfold pyInsert at hx
  split at hx
  · rcases List.mem_map.mp hx with ⟨p, hp, he⟩
    by_cases hk : p.1 = k
    · right
      simp only [hk, if_pos] at he
      exact he.symm
    · left
      simp only [hk, if_neg, not_false_iff, ite_false] at he
      exact he ▸ hp
  · rcases List.mem_append.mp hx with h | h
    · exact Or.inl h
    · right; simpa using h

lemma pyInsert_key_mono {α β : Type} [DecidableEq α] {d : List (α × β)} {k : α}
    {v : β} {a : α} (ha : a ∈ d.map Prod.fst) :
    a ∈ (pyInsert d k v).map Prod.fst := by
  unfold pyInsert
  split
  · rw [List.map_map]
    rcases List.mem_map.mp ha with ⟨p, hp, he⟩
    apply List.mem_map.mpr
    refine ⟨p, hp, ?_⟩
    simp only [Function.comp_apply]
    by_cases hk : p.1 = k
    · rw [if_pos hk]
      exact hk ▸ he
    · rw [if_neg hk]
      exact he
  · rw [List.map_append]
    exact List.mem_append_left _ ha

lemma pyInsert_key_self {α β : Type} [DecidableEq α] (d : List (α × β)) (k : α)
    (v : β) : k ∈ (pyInsert d k v).map Prod.fst := by
  unfold pyInsert
  split
  · rename_i hk
    rw [List.map_map]
    rcases List.mem_map.mp hk with ⟨p, hp, he⟩
    apply List.mem_map.mpr
    refine ⟨p, hp, ?_⟩
    simp [he]
  · simp

/-- Invariant of the `choices` construction: every stored pair maps a
lowercased usn or name of a roster member to that member. -/
lemma buildGo_inv (students0 : List Student) :
    ∀ (sts : List Student) (acc : List (List Char × Student)),
    (∀ st ∈ sts, st ∈ students0) →
    (∀ p ∈ acc, (p.1 = lowerStr p.2.usn ∨ p.1 = lowerStr p.2.name) ∧ p.2 ∈ students0) →
    ∀ p ∈ buildChoicesGo acc sts,
      (p.1 = lowerStr p.2.usn ∨ p.1 = lowerStr p.2.name) ∧ p.2 ∈ students0 := by
  intro sts
  induction sts with
  | nil => intro acc _ hacc p hp; exact hacc p hp
  | cons st sts ih =>
    intro acc hsub hacc p hp
    unfold buildChoicesGo at hp
    refine ih _ (fun s hs => hsub s (List.mem_cons_of_mem st hs)) ?_ p hp
    intro p2 hp2
    rcases pyInsert_mem_kv hp2 with h | h
    · rcases pyInsert_mem_kv h with h2 | h2
      · exact hacc p2 h2
      · subst h2
        exact ⟨Or.inl rfl, hsub st (List.mem_cons_self st sts)⟩
    · subst h
      exact ⟨Or.inr rfl, hsub st (List.mem_cons_self st sts)⟩

lemma buildGo_key_mono : ∀ (sts : List Student) (acc : List (List Char × Student))
    (k : List Char), k ∈ acc.map Prod.fst →
    k ∈ (buildChoicesGo acc sts).map Prod.fst := by
  intro sts
  induction sts with
  | nil => intro acc k hk; exact hk
  | cons st sts ih =>
    intro acc k hk
    unfold buildChoicesGo
    exact ih _ k (pyInsert_key_mono (pyInsert_key_mono hk))

lemma buildGo_key_present : ∀ (sts : List Student) (acc : List (List Char × Student))
    (st : Student), st ∈ sts →
    lowerStr st.usn ∈ (buildChoicesGo acc sts).map Prod.fst ∧
    lowerStr st.name ∈ (buildChoicesGo acc sts).map Prod.fst := by
  intro sts
  induction sts with
  | nil => intro acc st h; simp at h
  | cons st0 sts ih =>
    intro acc st hmem
    rcases List.mem_cons.mp hmem with heq | htail
    · subst heq
      unfold buildChoicesGo
      constructor
      · exact buildGo_key_mono sts _ _
          (pyInsert_key_mono (pyInsert_key_self _ _ _))
      · exact buildGo_key_mono sts _ _ (pyInsert_key_self _ _ _)
    · exact ih _ st htail

lemma lookup_mem {α β : Type} [DecidableEq α] : ∀ {d : List (α × β)} {k : α} {v : β},
    lookupKV d k = some v → (k, v) ∈ d := by
  intro d
  induction d with
  | nil => intro k v h; exact absurd h (by simp [lookupKV])
  | cons p rest ih =>
    intro k v h
    rcases p with ⟨k0, v0⟩
    unfold lookupKV at h
    split at h
    · rename_i heq
      injection h with hv
      subst heq hv
      exact List.mem_cons_self _ _
    · exact List.mem_cons_of_mem _ (ih h)

lemma lookup_of_key_mem {α β : Type} [DecidableEq α] : ∀ {d : List (α × β)} {k : α},
    k ∈ d.map Prod.fst → ∃ v, lookupKV d k = some v := by
  intro d
  induction d with
  | nil => intro k h; simp at h
  | cons p rest ih =>
    intro k h
    rcases p with ⟨k0, v0⟩
    unfold lookupKV
    by_cases heq : k0 = k
    · exact ⟨v0, by rw [if_pos heq]⟩
    · rcases List.mem_map.mp h with ⟨p2, hp2, he⟩
      rcases List.mem_cons.mp hp2 with h2 | h2
      · exfalso
        apply heq
        rw [h2] at he
        exact he
      · rw [if_neg heq]
        exact ih (List.mem_map.mpr ⟨p2, h2, he⟩)

/-- C8: the fuzzy roster matcher resolves an identifier that equals
(case-insensitively) the roll-number or name of exactly one roster entry to
that entry; any returned entry scores at least 70 against the lowercased
identifier on its roll-number or name; and if every entry scores below 70 on
both keys, the matcher reports "not found". -/
theorem claim_C8 (students : List Student) (identifier : List Char) :
    (∀ st ∈ students,
      (lowerStr identifier = lowerStr st.usn ∨ lowerStr identifier = lowerStr st.name) →
      (∀ st2 ∈ students,
        (lowerStr identifier = lowerStr st2.usn ∨
          lowerStr identifier = lowerStr st2.name) → st2 = st) →
      fuzzy_find_student students identifier = some st) ∧
    (∀ st, fuzzy_find_student students identifier = some st →
      70 ≤ fratio (lowerStr identifier) (lowerStr st.usn) ∨
      70 ≤ fratio (lowerStr identifier) (lowerStr st.name)) ∧
    ((∀ st ∈ students, fratio (lowerStr identifier) (lowerStr st.usn) < 70 ∧
        fratio (lowerStr identifier) (lowerStr st.name) < 70) →
      fuzzy_find_student students identifier = none) := by
  refine ⟨?_, ?_, ?_⟩
  · intro st hst hkey huniq
    cases hs : students with
    | nil => rw [hs] at hst; simp at hst
    | cons s0 srest =>
      unfold fuzzy_find_student
      rw [← hs]
      have hform :
          (match students with
            | [] => none
            | _ :: _ =>
              match extractOne (lowerStr identifier)
                  ((buildChoices students).map Prod.fst) with
              | some (k, _) => lookupKV (buildChoices students) k
              | none => none) =
          (match extractOne (lowerStr identifier)
              ((buildChoices students).map Prod.fst) with
            | some (k, _) => lookupKV (buildChoices students) k
            | none => none) := by
        rw [hs]
      rw [hform]
      have hk0 : lowerStr identifier ∈ (buildChoices students).map Prod.fst := by
        rcases hkey with h | h
        · rw [h]
          exact (buildGo_key_present students [] st hst).1
        · rw [h]
          exact (buildGo_key_present students [] st hst).2
      have h100 : 70 ≤ fratio (lowerStr identifier) (lowerStr identifier) := by
        rw [fratio_self]
        norm_num
      rcases exo_hit (lowerStr identifier) ((buildChoices students).map Prod.fst)
          none (lowerStr identifier) hk0 h100 with ⟨k, sc, hexo, hge⟩
      rcases exo_sound (lowerStr identifier) _ none (by simp) k sc hexo with
        ⟨hsc, _⟩
      have hsc100 : sc = 100 := by
        have hle : sc ≤ 100 := hsc ▸ fratio_le_100 _ _
        have : (100 : ℚ) ≤ sc := by
          rw [fratio_self] at hge
          exact hge
        linarith
      have hkq : k = lowerStr identifier :=
        (fratio_eq_100 (by rw [← hsc, hsc100])).symm
      have hexo2 : extractOne (lowerStr identifier)
          ((buildChoices students).map Prod.fst) = some (k, sc) := hexo
      rw [hexo2]
      subst hkq
      dsimp only
      rcases lookup_of_key_mem hk0 with ⟨v, hv⟩
      rw [hv]
      have hmemv := lookup_mem hv
      rcases buildGo_inv students students [] (fun s hsx => hsx) (by simp)
          _ hmemv with ⟨hvk, hvmem⟩
      have hvsel : lowerStr identifier = lowerStr v.usn ∨
          lowerStr identifier = lowerStr v.name := hvk
      have hveq : v = st := huniq v hvmem hvsel
      rw [hveq]
  · intro st hfind
    cases hs : students with
    | nil => rw [hs] at hfind; exact absurd hfind (by simp [fuzzy_find_student])
    | cons s0 srest =>
      rw [hs] at hfind
      unfold fuzzy_find_student at hfind
      dsimp only at hfind
      rcases hexo : extractOne (lowerStr identifier)
          ((buildChoices (s0 :: srest)).map Prod.fst) with _ | ⟨k, sc⟩
      · rw [hexo] at hfind
        simp at hfind
      · rw [hexo] at hfind
        simp only at hfind
        rcases exo_sound (lowerStr identifier) _ none (by simp) k sc hexo with
          ⟨hsc, h70⟩
        have hmemk := lookup_mem hfind
        rcases buildGo_inv (s0 :: srest) (s0 :: srest) [] (fun s hsx => hsx)
            (by simp) _ hmemk with ⟨hvk, _⟩
        dsimp only at hvk
        rcases hvk with h | h
        · left
          rw [← h, ← hsc]
          exact h70
        · right
          rw [← h, ← hsc]
          exact h70
  · intro hall
    cases hs : students with
    | nil => simp [fuzzy_find_student]
    | cons s0 srest =>
      unfold fuzzy_find_student
      dsimp only
      have hexo : extractOne (lowerStr identifier)
          ((buildChoices (s0 :: srest)).map Prod.fst) = none := by
        apply exo_allLow
        intro k hk
        rcases List.mem_map.mp hk with ⟨p, hp, he⟩
        rcases buildGo_inv (s0 :: srest) (s0 :: srest) [] (fun s hsx => hsx)
            (by simp) _ hp with ⟨hvk, hvmem⟩
        rw [hs] at hall
        rcases hvk with h | h
        · rw [← he, h]
          exact (hall p.2 hvmem).1
        · rw [← he, h]
          exact (hall p.2 hvmem).2
      rw [hexo]

theorem claim_C8_witness :
    (((⟨1, "b1".toList, "bo".toList⟩ : Student) ∈
        [(⟨1, "b1".toList, "bo".toList⟩ : Student)] ∧
      (lowerStr ("Bo".toList) = lowerStr ("b1".toList) ∨
        lowerStr ("Bo".toList) = lowerStr ("bo".toList)) ∧
      (∀ st2 ∈ [(⟨1, "b1".toList, "bo".toList⟩ : Student)],
        (lowerStr ("Bo".toList) = lowerStr st2.usn ∨
          lowerStr ("Bo".toList) = lowerStr st2.name) →
        st2 = (⟨1, "b1".toList, "bo".toList⟩ : Student)) ∧
      fuzzy_find_student [(⟨1, "b1".toList, "bo".toList⟩ : Student)] ("Bo".toList) =
        some (⟨1, "b1".toList, "bo".toList⟩ : Student)) ∧
    ((∀ st ∈ [(⟨1, "b1".toList, "bo".toList⟩ : Student)],
        fratio (lowerStr ("xq".toList)) (lowerStr st.usn) < 70 ∧
        fratio (lowerStr ("xq".toList)) (lowerStr st.name) < 70) ∧
      fuzzy_find_student [(⟨1, "b1".toList, "bo".toList⟩ : Student)] ("xq".toList) =
        none)) ∧
    (fuzzy_find_student [(⟨1, "zz".toList, "abcd".toList⟩ : Student)] ("abc".toList) =
        some (⟨1, "zz".toList, "abcd".toList⟩ : Student) ∧
      (70 ≤ fratio (lowerStr ("abc".toList))
          (lowerStr (⟨1, "zz".toList, "abcd".toList⟩ : Student).usn) ∨
        70 ≤ fratio (lowerStr ("abc".toList))
          (lowerStr (⟨1, "zz".toList, "abcd".toList⟩ : Student).name))) :=
  ⟨⟨⟨by decide, by decide, by decide,
      (claim_C8 [(⟨1, "b1".toList, "bo".toList⟩ : Student)] ("Bo".toList)).1
        (⟨1, "b1".toList, "bo".toList⟩ : Student) (by decide) (by decide) (by decide)⟩,
    ⟨by decide,
      (claim_C8 [(⟨1, "b1".toList, "bo".toList⟩ : Student)] ("xq".toList)).2.2
        (by decide)⟩⟩,
   ⟨by decide,
    (claim_C8 [(⟨1, "zz".toList, "abcd".toList⟩ : Student)] ("abc".toList)).2.1
      (⟨1, "zz".toList, "abcd".toList⟩ : Student) (by decide)⟩⟩


/-- "Contains no letter q (case-insensitively)": no match of either
transcription-fix pattern can start inside such a string. -/
def QF (l : List Char) : Prop := ∀ c ∈ l, lowerC c ≠ 'q'

instance (l : List Char) : Decidable (QF l) := by
  unfold QF
  infer_instance

lemma QF_nil : QF [] := by intro c hc; simp at hc

lemma QF_cons {c : Char} {s : List Char} (hc : lowerC c ≠ 'q') (hs : QF s) :
    QF (c :: s) := by
  intro x hx
  rcases List.mem_cons.mp hx with rfl | hx2
  · exact hc
  · exact hs x hx2

lemma QF_append {x y : List Char} (hx : QF x) (hy : QF y) : QF (x ++ y) := by
  intro c hc
  rcases List.mem_append.mp hc with h | h
  · exact hx c h
  · exact hy c h

lemma ciSplit_decomp : ∀ (l s pre rest : List Char),
    ciSplitLit l s = some (pre, rest) → s = pre ++ rest ∧ pre.length = l.length := by
  intro l
  induction l with
  | nil =>
    intro s pre rest h
    unfold ciSplitLit at h
    injection h with h1
    have hp : pre = [] := (congrArg Prod.fst h1).symm
    have hr : rest = s := (congrArg Prod.snd h1).symm
    subst hp
    subst hr
    exact ⟨rfl, rfl⟩
  | cons lc ls ih =>
    intro s pre rest h
    cases s with
    | nil => exact absurd h (by simp [ciSplitLit])
    | cons c s2 =>
      unfold ciSplitLit at h
      split at h
      · rcases hrec : ciSplitLit ls s2 with _ | ⟨pre2, rest2⟩
        · rw [hrec] at h
          simp at h
        · rw [hrec] at h
          simp only at h
          injection h with h1
          have hp : pre = c :: pre2 := (congrArg Prod.fst h1).symm
          have hr : rest = rest2 := (congrArg Prod.snd h1).symm
          subst hp
          subst hr
          rcases ih s2 pre2 rest hrec with ⟨he, hl⟩
          constructor
          · rw [List.cons_append, ← he]
          · simp [hl]
      · exact absurd h (by simp)

lemma try1_decomp : ∀ (s m : List Char) (a b : Char) (rest : List Char),
    try1 s = some (m, a, b, rest) → s = m ++ rest ∧ m ≠ [] := by
  intro s m a b rest h
  unfold try1 at h
  rcases h1 : ciSplitLit ("question".toList) s with _ | ⟨cq, s1⟩
  · rw [h1] at h; simp at h
  · rw [h1] at h
    simp only at h
    rcases h2 : s1.dropWhile pyIsSpace with _ | ⟨a2, s2t⟩
    · rw [h2] at h; simp at h
    · rcases s2t with _ | ⟨b2, s3⟩
      · rw [h2] at h; simp at h
      · rw [h2] at h
        simp only at h
        split at h
        · rcases h3 : ciSplitLit ("mark".toList) (s3.dropWhile pyIsSpace)
            with _ | ⟨cm, rest2⟩
          · rw [h3] at h; simp at h
          · rw [h3] at h
            simp only at h
            injection h with hh
            have hm : m = cq ++ s1.takeWhile pyIsSpace ++
                a2 :: b2 :: (s3.takeWhile pyIsSpace ++ cm) :=
              (congrArg (fun p => p.1) hh).symm
            have hrest : rest = rest2 :=
              (congrArg (fun p => p.2.2.2) hh).symm
            rcases ciSplit_decomp _ _ _ _ h1 with ⟨hs1, hlq⟩
            rcases ciSplit_decomp _ _ _ _ h3 with ⟨hs4, _⟩
            constructor
            · rw [hs1, hm, hrest]
              have hsplit1 : s1 = s1.takeWhile pyIsSpace ++ s1.dropWhile pyIsSpace :=
                (List.takeWhile_append_dropWhile pyIsSpace s1).symm
              have hsplit3 : s3 = s3.takeWhile pyIsSpace ++ s3.dropWhile pyIsSpace :=
                (List.takeWhile_append_dropWhile pyIsSpace s3).symm
              calc cq ++ s1
                  = cq ++ (s1.takeWhile pyIsSpace ++ (a2 :: b2 :: s3)) := by
                    rw [← h2, ← hsplit1]
                _ = cq ++ (s1.takeWhile pyIsSpace ++ (a2 :: b2 ::
                      (s3.takeWhile pyIsSpace ++ (cm ++ rest2)))) := by
                    rw [← hs4, ← hsplit3]
                _ = cq ++ s1.takeWhile pyIsSpace ++
                      a2 :: b2 :: (s3.takeWhile pyIsSpace ++ cm) ++ rest2 := by
                    simp [List.append_assoc]
            · intro hmn
              rw [hm] at hmn
              rcases List.append_eq_nil.mp (List.append_eq_nil.mp hmn).1 with ⟨hcq, _⟩
              rw [hcq] at hlq
              simp at hlq
        · simp at h

lemma try2_decomp : ∀ (s m : List Char) (a b : Char) (rest : List Char),
    try2 s = some (m, a, b, rest) → s = m ++ rest ∧ m ≠ [] := by
  intro s m a b rest h
  unfold try2 at h
  rcases h1 : ciSplitLit ("question".toList) s with _ | ⟨cq, s1⟩
  · rw [h1] at h; simp at h
  · rw [h1] at h
    simp only at h
    rcases h2 : s1.dropWhile pyIsSpace with _ | ⟨a2, s2t⟩
    · rw [h2] at h; simp at h
    · rcases s2t with _ | ⟨b2, s3⟩
      · rw [h2] at h; simp at h
      · rw [h2] at h
        simp only at h
        split at h
        · injection h with hh
          have hm : m = cq ++ s1.takeWhile pyIsSpace ++ a2 :: b2 :: [] :=
            (congrArg (fun p => p.1) hh).symm
          have hrest : rest = s3 := (congrArg (fun p => p.2.2.2) hh).symm
          rcases ciSplit_decomp _ _ _ _ h1 with ⟨hs1, hlq⟩
          constructor
          · rw [hs1, hm, hrest]
            have hsplit1 : s1 = s1.takeWhile pyIsSpace ++ s1.dropWhile pyIsSpace :=
              (List.takeWhile_append_dropWhile pyIsSpace s1).symm
            calc cq ++ s1
                = cq ++ (s1.takeWhile pyIsSpace ++ (a2 :: b2 :: s3)) := by
                  rw [← h2, ← hsplit1]
              _ = cq ++ s1.takeWhile pyIsSpace ++ a2 :: b2 :: [] ++ s3 := by
                  simp [List.append_assoc]
          · intro hmn
            rw [hm] at hmn
            rcases List.append_eq_nil.mp (List.append_eq_nil.mp hmn).1 with ⟨hcq, _⟩
            rw [hcq] at hlq
            simp at hlq
        · simp at h

lemma try1_none_q {c : Char} (hc : lowerC c ≠ 'q') (s : List Char) :
    try1 (c :: s) = none := by
  unfold try1
  have h0 : ("question".toList : List Char) = 'q' :: "uestion".toList := rfl
  have h1 : ciSplitLit ('q' :: "uestion".toList) (c :: s) = none := by
    simp only [ciSplitLit]
    rw [if_neg (show ¬(lowerC c = lowerC 'q') from fun hq => hc hq)]
  rw [h0, h1]

lemma try2_none_q {c : Char} (hc : lowerC c ≠ 'q') (s : List Char) :
    try2 (c :: s) = none := by
  unfold try2
  have h0 : ("question".toList : List Char) = 'q' :: "uestion".toList := rfl
  have h1 : ciSplitLit ('q' :: "uestion".toList) (c :: s) = none := by
    simp only [ciSplitLit]
    rw [if_neg (show ¬(lowerC c = lowerC 'q') from fun hq => hc hq)]
  rw [h0, h1]

/-- A try-function with the shape of `try1`/`try2`: matches decompose the
input and never start at a non-q character. -/
structure TryFn where
  fn : List Char → Option (List Char × Char × Char × List Char)
  decomp : ∀ s m a b rest, fn s = some (m, a, b, rest) → s = m ++ rest ∧ m ≠ []
  noq : ∀ c s, lowerC c ≠ 'q' → fn (c :: s) = none

def try1T : TryFn := ⟨try1, try1_decomp, fun _ s hc => try1_none_q hc s⟩

def try2T : TryFn := ⟨try2, try2_decomp, fun _ s hc => try2_none_q hc s⟩

lemma subF_qfree_id (T : TryFn) : ∀ (f : Nat) (s : List Char), QF s →
    subF T.fn f s = s := by
  intro f
  induction f with
  | zero => intro s _; rfl
  | succ f ih =>
    intro s hs
    cases s with
    | nil => rfl
    | cons c s2 =>
      have hc : lowerC c ≠ 'q' := hs c (List.mem_cons_self c s2)
      show subF T.fn (f + 1) (c :: s2) = c :: s2
      simp only [subF]
      rw [T.noq c s2 hc]
      rw [ih s2 (fun x hx => hs x (List.mem_cons_of_mem c hx))]

lemma subF_headfail (T : TryFn) (f : Nat) (c : Char) (s : List Char)
    (htry : T.fn (c :: s) = none) (hs : QF s) :
    subF T.fn f (c :: s) = c :: s := by
  cases f with
  | zero => rfl
  | succ f =>
    simp only [subF]
    rw [htry]
    rw [subF_qfree_id T f s hs]

lemma subF_append_qfree (T : TryFn) : ∀ (pre s : List Char), QF pre →
    subF T.fn (pre ++ s).length (pre ++ s) = pre ++ subF T.fn s.length s := by
  intro pre
  induction pre with
  | nil => intro s _; simp
  | cons c pr ih =>
    intro s hq
    have hc : lowerC c ≠ 'q' := hq c (List.mem_cons_self c pr)
    show subF T.fn ((pr ++ s).length + 1) (c :: (pr ++ s)) = _
    simp only [subF]
    rw [T.noq c (pr ++ s) hc]
    rw [ih s (fun x hx => hq x (List.mem_cons_of_mem c hx))]
    rfl

lemma subF_match_qfree (T : TryFn) (s m : List Char) (a b : Char) (rest : List Char)
    (htry : T.fn s = some (m, a, b, rest)) (hrest : QF rest) :
    subF T.fn s.length s = replace_question_number a b m ++ rest := by
  cases s with
  | nil =>
    exfalso
    rcases T.decomp [] m a b rest htry with ⟨hd, hm⟩
    rcases List.append_eq_nil.mp hd.symm with ⟨hm2, _⟩
    exact hm hm2
  | cons c s2 =>
    show subF T.fn (s2.length + 1) (c :: s2) = _
    simp only [subF]
    rw [htry]
    dsimp only
    rw [subF_qfree_id T s2.length rest hrest]


lemma try1_occ_marks (d1 d2 : Char) (h1 : pyIsDigit d1 = true) (h2 : pyIsDigit d2 = true)
    (hs1 : pyIsSpace d1 = false) (post : List Char) :
    try1 ("question ".toList ++ d1 :: d2 :: (" marks".toList ++ post)) =
      some ("question ".toList ++ d1 :: d2 :: " mark".toList, d1, d2, 's' :: post) := by
  have hq : ciSplitLit ("question".toList)
      ("question ".toList ++ d1 :: d2 :: (" marks".toList ++ post)) =
      some ("question".toList, ' ' :: d1 :: d2 :: (" marks".toList ++ post)) := rfl
  unfold try1
  rw [hq]
  dsimp only
  have hdw : (' ' :: d1 :: d2 :: (" marks".toList ++ post)).dropWhile pyIsSpace =
      d1 :: d2 :: (" marks".toList ++ post) := by
    rw [List.dropWhile_cons_of_pos (by decide), List.dropWhile_cons_of_neg (by simp [hs1])]
  have htw : (' ' :: d1 :: d2 :: (" marks".toList ++ post)).takeWhile pyIsSpace = [' '] := by
    rw [List.takeWhile_cons_of_pos (by decide), List.takeWhile_cons_of_neg (by simp [hs1])]
  rw [hdw, htw]
  dsimp only
  rw [h1, h2]
  rw [if_pos (show ((true && true) = true) from rfl)]
  rfl

lemma try1_occ_bare_none (d1 d2 : Char) (hs1 : pyIsSpace d1 = false)
    (post : List Char)
    (hbare : post = [] ∨ ∃ c r, post = c :: r ∧ pyIsSpace c = false ∧
      pyIsDigit c = false ∧ lowerC c ≠ 'm') :
    try1 ("question ".toList ++ d1 :: d2 :: post) = none := by
  have hq : ciSplitLit ("question".toList) ("question ".toList ++ d1 :: d2 :: post) =
      some ("question".toList, ' ' :: d1 :: d2 :: post) := rfl
  unfold try1
  rw [hq]
  dsimp only
  have hdw : (' ' :: d1 :: d2 :: post).dropWhile pyIsSpace = d1 :: d2 :: post := by
    rw [List.dropWhile_cons_of_pos (by decide), List.dropWhile_cons_of_neg (by simp [hs1])]
  rw [hdw]
  dsimp only
  have hmark : ciSplitLit ("mark".toList) (post.dropWhile pyIsSpace) = none := by
    rcases hbare with rfl | ⟨c, r, rfl, hcs, _, hcm⟩
    · rfl
    · rw [List.dropWhile_cons_of_neg (by simp [hcs])]
      show ciSplitLit ('m' :: "ark".toList) (c :: r) = none
      simp only [ciSplitLit]
      rw [if_neg (show ¬(lowerC c = lowerC 'm') from fun hcc => hcm hcc)]
  split
  · rw [hmark]
  · rfl

lemma try2_occ_some (d1 d2 : Char) (h1 : pyIsDigit d1 = true) (h2 : pyIsDigit d2 = true)
    (hs1 : pyIsSpace d1 = false) (post : List Char)
    (hnd : post = [] ∨ ∃ c r, post = c :: r ∧ pyIsDigit c = false) :
    try2 ("question ".toList ++ d1 :: d2 :: post) =
      some ("question ".toList ++ d1 :: d2 :: [], d1, d2, post) := by
  have hq : ciSplitLit ("question".toList) ("question ".toList ++ d1 :: d2 :: post) =
      some ("question".toList, ' ' :: d1 :: d2 :: post) := rfl
  unfold try2
  rw [hq]
  dsimp only
  have hdw : (' ' :: d1 :: d2 :: post).dropWhile pyIsSpace = d1 :: d2 :: post := by
    rw [List.dropWhile_cons_of_pos (by decide), List.dropWhile_cons_of_neg (by simp [hs1])]
  have htw : (' ' :: d1 :: d2 :: post).takeWhile pyIsSpace = [' '] := by
    rw [List.takeWhile_cons_of_pos (by decide), List.takeWhile_cons_of_neg (by simp [hs1])]
  rw [hdw, htw]
  dsimp only
  rcases hnd with rfl | ⟨c, r, rfl, hcd⟩
  · rw [h1, h2]
    rw [if_pos (show ((true && true && true) = true) from rfl)]
    rfl
  · rw [h1, h2]
    dsimp only
    rw [show (!pyIsDigit c) = true by simp [hcd]]
    rw [if_pos (show ((true && true && true) = true) from rfl)]
    rfl

lemma try2_none_repl (d1 : Char) (hs1 : pyIsSpace d1 = false) (r : List Char) :
    try2 ("question ".toList ++ d1 :: ' ' :: r) = none := by
  have hq : ciSplitLit ("question".toList) ("question ".toList ++ d1 :: ' ' :: r) =
      some ("question".toList, ' ' :: d1 :: ' ' :: r) := rfl
  unfold try2
  rw [hq]
  dsimp only
  have hdw : (' ' :: d1 :: ' ' :: r).dropWhile pyIsSpace = d1 :: ' ' :: r := by
    rw [List.dropWhile_cons_of_pos (by decide), List.dropWhile_cons_of_neg (by simp [hs1])]
  rw [hdw]
  dsimp only
  split
  · rename_i hcc
    exfalso
    rw [show pyIsDigit ' ' = false from rfl] at hcc
    simp at hcc
  · rfl

lemma repl_in_range (d1 d2 : Char) (m : List Char) (hlo : 1 ≤ d1.toNat - '0'.toNat)
    (hhi : d1.toNat - '0'.toNat ≤ 8) (hd2 : d2.toNat - '0'.toNat ≤ 10) :
    replace_question_number d1 d2 m =
      "question ".toList ++ d1 :: ' ' :: d2 :: " marks".toList := by
  unfold replace_question_number
  dsimp only
  rw [if_pos ⟨hlo, hhi, Nat.zero_le _, hd2⟩]

lemma repl_out_range (d1 d2 : Char) (m : List Char)
    (h : d1.toNat - '0'.toNat = 0 ∨ 8 < d1.toNat - '0'.toNat) :
    replace_question_number d1 d2 m = m := by
  unfold replace_question_number
  dsimp only
  rw [if_neg]
  rintro ⟨hlo, hhi, _, _⟩
  rcases h with h | h <;> omega

/-- C7 (amended): before marks extraction, the digit-merge correction
rewrites an occurrence of "question" + two-digit number whose first digit is
1..8 as "question <d1> <d2> marks" — but the optional trailing word matched is
only "mark", so an original "marks" keeps its final "s" after the rewrite
("question 18 marks" becomes "question 1 8 markss") — and it leaves the
occurrence unchanged when the first digit is outside 1..8.  Stated for an
occurrence in any context free of the letter q (where no other match can
start or overlap); in the bare form the occurrence must not be followed by a
space, digit, or "m" (which would extend the match). -/
theorem claim_C7 (d1 d2 : Char) (pre post : List Char)
    (hpre : QF pre) (hpost : QF post)
    (hd2m : d2 ∈ ['0', '1', '2', '3', '4', '5', '6', '7', '8', '9']) :
    (d1 ∈ ['1', '2', '3', '4', '5', '6', '7', '8'] →
      fix_transcription_errors
          (pre ++ ("question ".toList ++ d1 :: d2 :: (" marks".toList ++ post))) =
        pre ++ ("question ".toList ++ d1 :: ' ' :: d2 ::
          (" marks".toList ++ 's' :: post))) ∧
    (d1 ∈ ['1', '2', '3', '4', '5', '6', '7', '8'] →
      (post = [] ∨ ∃ c r, post = c :: r ∧ pyIsSpace c = false ∧ pyIsDigit c = false ∧
        lowerC c ≠ 'm') →
      fix_transcription_errors (pre ++ ("question ".toList ++ d1 :: d2 :: post)) =
        pre ++ ("question ".toList ++ d1 :: ' ' :: d2 :: (" marks".toList ++ post))) ∧
    ((d1 = '0' ∨ d1 = '9') →
      fix_transcription_errors
          (pre ++ ("question ".toList ++ d1 :: d2 :: (" marks".toList ++ post))) =
        pre ++ ("question ".toList ++ d1 :: d2 :: (" marks".toList ++ post))) := by
  have hf2 : pyIsDigit d2 = true ∧ lowerC d2 ≠ 'q' ∧ d2.toNat - '0'.toNat ≤ 10 := by
    fin_cases hd2m <;> exact ⟨by decide, by decide, by decide⟩
  obtain ⟨h2d, h2q, h2v⟩ := hf2
  refine ⟨?_, ?_, ?_⟩
  · intro hd1m
    have hf1 : pyIsDigit d1 = true ∧ pyIsSpace d1 = false ∧ lowerC d1 ≠ 'q' ∧
        1 ≤ d1.toNat - '0'.toNat ∧ d1.toNat - '0'.toNat ≤ 8 := by
      fin_cases hd1m <;> exact ⟨by decide, by decide, by decide, by decide, by decide⟩
    obtain ⟨h1d, h1s, h1q, h1lo, h1hi⟩ := hf1
    unfold fix_transcription_errors
    dsimp only
    have e1 : subF try1
        (pre ++ ("question ".toList ++ d1 :: d2 :: (" marks".toList ++ post))).length
        (pre ++ ("question ".toList ++ d1 :: d2 :: (" marks".toList ++ post))) =
        pre ++ subF try1
          ("question ".toList ++ d1 :: d2 :: (" marks".toList ++ post)).length
          ("question ".toList ++ d1 :: d2 :: (" marks".toList ++ post)) :=
      subF_append_qfree try1T pre _ hpre
    rw [e1]
    have e2 : subF try1
        ("question ".toList ++ d1 :: d2 :: (" marks".toList ++ post)).length
        ("question ".toList ++ d1 :: d2 :: (" marks".toList ++ post)) =
        replace_question_number d1 d2
          ("question ".toList ++ d1 :: d2 :: " mark".toList) ++ ('s' :: post) :=
      subF_match_qfree try1T _ _ d1 d2 ('s' :: post)
        (try1_occ_marks d1 d2 h1d h2d h1s post) (QF_cons (by decide) hpost)
    rw [e2]
    rw [repl_in_range d1 d2 _ h1lo h1hi h2v]
    simp only [List.append_assoc, List.cons_append]
    have htry : try2 ('q' :: ("uestion ".toList ++ d1 :: ' ' :: d2 ::
        (" marks".toList ++ 's' :: post))) = none :=
      try2_none_repl d1 h1s (d2 :: (" marks".toList ++ 's' :: post))
    have hqtail : QF ("uestion ".toList ++ d1 :: ' ' :: d2 ::
        (" marks".toList ++ 's' :: post)) :=
      QF_append (by decide) (QF_cons h1q (QF_cons (by decide) (QF_cons h2q
        (QF_append (by decide) (QF_cons (by decide) hpost)))))
    have e4 : subF try2
        (pre ++ ("question ".toList ++ d1 :: ' ' :: d2 ::
          (" marks".toList ++ 's' :: post))).length
        (pre ++ ("question ".toList ++ d1 :: ' ' :: d2 ::
          (" marks".toList ++ 's' :: post))) =
        pre ++ subF try2
          ("question ".toList ++ d1 :: ' ' :: d2 ::
            (" marks".toList ++ 's' :: post)).length
          ("question ".toList ++ d1 :: ' ' :: d2 ::
            (" marks".toList ++ 's' :: post)) :=
      subF_append_qfree try2T pre _ hpre
    rw [e4]
    have e5 : subF try2
        ("question ".toList ++ d1 :: ' ' :: d2 ::
          (" marks".toList ++ 's' :: post)).length
        ("question ".toList ++ d1 :: ' ' :: d2 ::
          (" marks".toList ++ 's' :: post)) =
        "question ".toList ++ d1 :: ' ' :: d2 :: (" marks".toList ++ 's' :: post) :=
      subF_headfail try2T _ 'q'
        ("uestion ".toList ++ d1 :: ' ' :: d2 :: (" marks".toList ++ 's' :: post))
        htry hqtail
    rw [e5]
  · intro hd1m hbare
    have hf1 : pyIsDigit d1 = true ∧ pyIsSpace d1 = false ∧ lowerC d1 ≠ 'q' ∧
        1 ≤ d1.toNat - '0'.toNat ∧ d1.toNat - '0'.toNat ≤ 8 := by
      fin_cases hd1m <;> exact ⟨by decide, by decide, by decide, by decide, by decide⟩
    obtain ⟨h1d, h1s, h1q, h1lo, h1hi⟩ := hf1
    have hnd : post = [] ∨ ∃ c r, post = c :: r ∧ pyIsDigit c = false := by
      rcases hbare with rfl | ⟨c, r, heq, _, hcd, _⟩
      · exact Or.inl rfl
      · exact Or.inr ⟨c, r, heq, hcd⟩
    unfold fix_transcription_errors
    dsimp only
    have e1 : subF try1 (pre ++ ("question ".toList ++ d1 :: d2 :: post)).length
        (pre ++ ("question ".toList ++ d1 :: d2 :: post)) =
        pre ++ subF try1 ("question ".toList ++ d1 :: d2 :: post).length
          ("question ".toList ++ d1 :: d2 :: post) :=
      subF_append_qfree try1T pre _ hpre
    rw [e1]
    have htry1 : try1 ('q' :: ("uestion ".toList ++ d1 :: d2 :: post)) = none :=
      try1_occ_bare_none d1 d2 h1s post hbare
    have hqtail : QF ("uestion ".toList ++ d1 :: d2 :: post) :=
      QF_append (by decide) (QF_cons h1q (QF_cons h2q hpost))
    have e2 : subF try1 ("question ".toList ++ d1 :: d2 :: post).length
        ("question ".toList ++ d1 :: d2 :: post) =
        "question ".toList ++ d1 :: d2 :: post :=
      subF_headfail try1T _ 'q' ("uestion ".toList ++ d1 :: d2 :: post) htry1 hqtail
    rw [e2]
    have e4 : subF try2 (pre ++ ("question ".toList ++ d1 :: d2 :: post)).length
        (pre ++ ("question ".toList ++ d1 :: d2 :: post)) =
        pre ++ subF try2 ("question ".toList ++ d1 :: d2 :: post).length
          ("question ".toList ++ d1 :: d2 :: post) :=
      subF_append_qfree try2T pre _ hpre
    rw [e4]
    have htry2 : try2 ("question ".toList ++ d1 :: d2 :: post) =
        some ("question ".toList ++ d1 :: d2 :: [], d1, d2, post) :=
      try2_occ_some d1 d2 h1d h2d h1s post hnd
    have e5 : subF try2 ("question ".toList ++ d1 :: d2 :: post).length
        ("question ".toList ++ d1 :: d2 :: post) =
        replace_question_number d1 d2 ("question ".toList ++ d1 :: d2 :: []) ++ post :=
      subF_match_qfree try2T _ _ d1 d2 post htry2 hpost
    rw [e5]
    rw [repl_in_range d1 d2 _ h1lo h1hi h2v]
    simp [List.append_assoc]
  · intro hd1or
    have hf1 : pyIsDigit d1 = true ∧ pyIsSpace d1 = false ∧ lowerC d1 ≠ 'q' ∧
        (d1.toNat - '0'.toNat = 0 ∨ 8 < d1.toNat - '0'.toNat) := by
      rcases hd1or with rfl | rfl
      · exact ⟨by decide, by decide, by decide, by decide⟩
      · exact ⟨by decide, by decide, by decide, by decide⟩
    obtain ⟨h1d, h1s, h1q, h1or⟩ := hf1
    unfold fix_transcription_errors
    dsimp only
    have e1 : subF try1
        (pre ++ ("question ".toList ++ d1 :: d2 :: (" marks".toList ++ post))).length
        (pre ++ ("question ".toList ++ d1 :: d2 :: (" marks".toList ++ post))) =
        pre ++ subF try1
          ("question ".toList ++ d1 :: d2 :: (" marks".toList ++ post)).length
          ("question ".toList ++ d1 :: d2 :: (" marks".toList ++ post)) :=
      subF_append_qfree try1T pre _ hpre
    rw [e1]
    have e2 : subF try1
        ("question ".toList ++ d1 :: d2 :: (" marks".toList ++ post)).length
        ("question ".toList ++ d1 :: d2 :: (" marks".toList ++ post)) =
        replace_question_number d1 d2
          ("question ".toList ++ d1 :: d2 :: " mark".toList) ++ ('s' :: post) :=
      subF_match_qfree try1T _ _ d1 d2 ('s' :: post)
        (try1_occ_marks d1 d2 h1d h2d h1s post) (QF_cons (by decide) hpost)
    rw [e2]
    rw [repl_out_range d1 d2 _ h1or]
    have hshape2 : (("question ".toList ++ d1 :: d2 :: " mark".toList) ++ 's' :: post) =
        "question ".toList ++ d1 :: d2 :: (" marks".toList ++ post) := by
      rw [List.append_assoc]
      rfl
    rw [hshape2]
    have e4 : subF try2
        (pre ++ ("question ".toList ++ d1 :: d2 :: (" marks".toList ++ post))).length
        (pre ++ ("question ".toList ++ d1 :: d2 :: (" marks".toList ++ post))) =
        pre ++ subF try2
          ("question ".toList ++ d1 :: d2 :: (" marks".toList ++ post)).length
          ("question ".toList ++ d1 :: d2 :: (" marks".toList ++ post)) :=
      subF_append_qfree try2T pre _ hpre
    rw [e4]
    have htry2 : try2 ("question ".toList ++ d1 :: d2 :: (" marks".toList ++ post)) =
        some ("question ".toList ++ d1 :: d2 :: [], d1, d2, " marks".toList ++ post) :=
      try2_occ_some d1 d2 h1d h2d h1s (" marks".toList ++ post)
        (Or.inr ⟨' ', "marks".toList ++ post, rfl, by decide⟩)
    have e5 : subF try2
        ("question ".toList ++ d1 :: d2 :: (" marks".toList ++ post)).length
        ("question ".toList ++ d1 :: d2 :: (" marks".toList ++ post)) =
        replace_question_number d1 d2 ("question ".toList ++ d1 :: d2 :: []) ++
          (" marks".toList ++ post) :=
      subF_match_qfree try2T _ _ d1 d2 (" marks".toList ++ post) htry2
        (QF_append (by decide) hpost)
    rw [e5]
    rw [repl_out_range d1 d2 _ h1or]
    simp [List.append_assoc]

/-- C7 counterexample: on "question 18 marks" the first substitution matches
only up to "mark", so the trailing "s" survives after the inserted "marks":
the result is "question 1 8 markss", not the "question 1 8 marks" the claim's
rewrite prescribes for that occurrence. -/
theorem claim_C7_counterexample :
    fix_transcription_errors ("question 18 marks".toList) =
      ("question 1 8 markss".toList) ∧
    fix_transcription_errors ("question 18 marks".toList) ≠
      ("question 1 8 marks".toList) := by decide

theorem claim_C7_witness :
    ((QF ("alice scored ".toList) ∧ QF ([] : List Char) ∧
        ('8' : Char) ∈ ['0', '1', '2', '3', '4', '5', '6', '7', '8', '9'] ∧
        ('1' : Char) ∈ ['1', '2', '3', '4', '5', '6', '7', '8']) ∧
      fix_transcription_errors ("alice scored ".toList ++
          ("question ".toList ++ '1' :: '8' :: (" marks".toList ++ []))) =
        "alice scored ".toList ++ ("question ".toList ++ '1' :: ' ' :: '8' ::
          (" marks".toList ++ 's' :: []))) ∧
    ((('9' : Char) = '0' ∨ ('9' : Char) = '9') ∧
      fix_transcription_errors ("alice scored ".toList ++
          ("question ".toList ++ '9' :: '8' :: (" marks".toList ++ []))) =
        "alice scored ".toList ++ ("question ".toList ++ '9' :: '8' ::
          (" marks".toList ++ []))) :=
  ⟨⟨⟨by decide, by decide, by decide, by decide⟩,
    (claim_C7 '1' '8' ("alice scored ".toList) [] (by decide) (by decide)
      (by decide)).1 (by decide)⟩,
   ⟨Or.inr rfl,
    (claim_C7 '9' '8' ("alice scored ".toList) [] (by decide) (by decide)
      (by decide)).2.2 (Or.inr rfl)⟩⟩
